import Mathlib

/-!
Claircore vulnerability store and update manager.

A shallow embedding of the query builders, the `get` and `putVulnerabilities`
store paths and the update `Manager`, with the properties proved about them.
-/

set_option autoImplicit false

namespace Claircore

/-! ## Errors -/

/-- Go error values: the sentinel `driver.Unchanged`, a plain error carrying its
message, and an error that carries a message and unwraps to an inner error
(what `fmt.Errorf` builds with the `%w` verb). -/
inductive Error where
  | Unchanged : Error
  | msg : String → Error
  | wrap : String → Error → Error
  deriving DecidableEq, Repr

namespace Error

/-- The `Error()` method: the message of the error. -/
def text : Error → String
  | Unchanged => "unchanged"
  | msg s => s
  | wrap s _ => s

/-- The test `errors.Is(err, driver.Unchanged)`: the error is the sentinel or
unwraps to it. -/
def isUnchanged : Error → Bool
  | Unchanged => true
  | msg _ => false
  | wrap _ inner => isUnchanged inner

end Error

/-! ## Data model -/

/-- A distribution envelope. -/
structure Distribution where
  DID : String
  Name : String
  Version : String
  VersionCodeName : String
  VersionID : String
  Arch : String
  CPE : String
  PrettyName : String
  deriving DecidableEq, Repr

/-- The source package of a package: only its name is read. -/
structure SourcePackage where
  Name : String
  deriving DecidableEq, Repr

/-- A package envelope. -/
structure Package where
  ID : Int
  Name : String
  Version : String
  Kind : String
  Source : SourcePackage
  deriving DecidableEq, Repr

/-- A package repository (`repository.go`). -/
structure Repository where
  ID : Int
  Name : String
  Key : String
  URI : String
  deriving DecidableEq, Repr

/-- The query input: a package with the distribution and repository it was
found in. -/
structure IndexRecord where
  Package : Package
  Distribution : Distribution
  Repository : Repository
  deriving DecidableEq, Repr

/-- A vulnerability; the three envelopes are pointers and may be nil. -/
structure Vulnerability where
  ID : Int
  Name : String
  Description : String
  Links : String
  Severity : String
  Package : Option Package
  Dist : Option Distribution
  Repo : Option Repository
  FixedInVersion : String
  deriving DecidableEq, Repr

/-- The match facets of `driver.MatchExp`: the eight constants the query
builders know, and `Other` for any further value of the integer type. -/
inductive MatchExp where
  | PackageDistributionDID
  | PackageDistributionName
  | PackageDistributionVersionCodeName
  | PackageDistributionVersionID
  | PackageDistributionVersion
  | PackageDistributionArch
  | PackageDistributionCPE
  | PackageDistributionPrettyName
  | Other (code : Int)
  deriving DecidableEq, Repr

/-- A facet is known when it is one of the eight constants. -/
def MatchExp.known : MatchExp → Bool
  | .Other _ => false
  | _ => true

/-- The `%v` rendering of a facet in an error message. -/
def MatchExp.verb : MatchExp → String
  | .PackageDistributionDID => "PackageDistributionDID"
  | .PackageDistributionName => "PackageDistributionName"
  | .PackageDistributionVersionCodeName => "PackageDistributionVersionCodeName"
  | .PackageDistributionVersionID => "PackageDistributionVersionID"
  | .PackageDistributionVersion => "PackageDistributionVersion"
  | .PackageDistributionArch => "PackageDistributionArch"
  | .PackageDistributionCPE => "PackageDistributionCPE"
  | .PackageDistributionPrettyName => "PackageDistributionPrettyName"
  | .Other code => toString code

/-! ## jsonquerybuilder.go -/

/-- The format `vulnerability @> %s`. -/
def queryTemplate (kv : String) : String := "vulnerability @> " ++ kv

/-- The format of a quoted two-level JSON document with three `%s` holes. -/
def kvTemplate (a b c : String) : String :=
  "\x27\x7b\"" ++ a ++ "\": \x7b \"" ++ b ++ "\": \"" ++ c ++ "\"\x7d\x7d\x27"

def and : String := "AND"
def or : String := "OR"
def space : String := " "
def openParen : String := "("
def closedParen : String := ")"
def selectClause : String := "SELECT id, vulnerability FROM vuln WHERE"

/-- The error of the `default` branch of the facet switch. -/
def unknownMatcher (m : MatchExp) : Error :=
  .msg ("was provided unknown matcher: " ++ m.verb)

/-- The `switch m` of `jsonQueryBuilder`: the query string appended for a facet,
`none` in the `default` branch. -/
def jsonSwitch (record : IndexRecord) : MatchExp → Option String
  | .PackageDistributionDID =>
    some (queryTemplate (kvTemplate "dist" "did" record.Distribution.DID))
  | .PackageDistributionName =>
    some (queryTemplate (kvTemplate "dist" "name" record.Distribution.Name))
  | .PackageDistributionVersionCodeName =>
    some (queryTemplate (kvTemplate "dist" "version_code_name" record.Distribution.VersionCodeName))
  | .PackageDistributionVersionID =>
    some (queryTemplate (kvTemplate "dist" "version_id" record.Distribution.VersionID))
  | .PackageDistributionVersion =>
    some (queryTemplate (kvTemplate "dist" "version" record.Distribution.Version))
  | .PackageDistributionArch =>
    some (queryTemplate (kvTemplate "dist" "arch" record.Distribution.Arch))
  | .PackageDistributionCPE =>
    some (queryTemplate (kvTemplate "dist" "cpe" record.Distribution.CPE))
  | .PackageDistributionPrettyName =>
    some (queryTemplate (kvTemplate "dist" "pretty_name" record.Distribution.PrettyName))
  | .Other _ => none

/-- The loop over the matchers shared by both builders: `seen` is the set of
facets handled so far, `acc` the strings appended so far, `switch` the body of
the `switch m` statement. -/
def matcherLoop (switch : MatchExp → Option String) :
    List MatchExp → List MatchExp → List String → Except Error (List String)
  | [], _, acc => .ok acc
  | m :: ms, seen, acc =>
    if m ∈ seen then matcherLoop switch ms seen acc
    else
      match switch m with
      | some q => matcherLoop switch ms (m :: seen) (acc ++ [q])
      | none => .error (unknownMatcher m)

/-- The final loop of `jsonQueryBuilder` writing the facet queries. -/
def writeQueries (builder : String) (queries : List String) : String :=
  queries.foldl (fun b query => b ++ and ++ space ++ query ++ space) builder

/-- The function `jsonQueryBuilder`. -/
def jsonQueryBuilder (record : IndexRecord) (matchers : List MatchExp) : Except Error String :=
  match matcherLoop (jsonSwitch record) matchers [] [] with
  | .error e => .error e
  | .ok queries =>
    let kv := kvTemplate "package" "name" record.Package.Name
    let packageQ := queryTemplate kv
    let builder := "" ++ selectClause ++ space ++ openParen ++ packageQ ++ space
    let builder :=
      if record.Package.Source.Name ≠ "" then
        let kv := kvTemplate "package" "name" record.Package.Source.Name
        let packageQ := queryTemplate kv
        builder ++ or ++ space ++ packageQ
      else builder
    let builder := builder ++ closedParen ++ space
    .ok (writeQueries builder queries)

/-! ## tag_builder.go -/

def openArray : String := "\x7b"
def closeArray : String := "\x7d"
def quote : String := "\""
def comma : String := ","

/-- The select clause of the tag builder, a format with one `%s` hole. -/
def tagSelectClause (tagsArray : String) : String :=
  "SELECT id,\n\t\tname,\n\t\tdescription,\n\t\tlinks,\n\t\tseverity,\n\t\tpackage_name,\n\t\tpackage_version,\n\t\tpackage_kind,\n\t\tdist_id,\n\t\tdist_name,\n\t\tdist_version,\n\t\tdist_version_code_name,\n\t\tdist_version_id,\n\t\tdist_arch,\n\t\tdist_cpe,\n\t\tdist_pretty_name,\n\t\trepo_name,\n\t\trepo_key,\n\t\trepo_uri,\n\t\tfixed_in_version\n\t\tFROM vuln WHERE tags @> \x27" ++ tagsArray ++ "\x27"

/-- The `switch m` of `tagQueryBuilder`: the tag appended for a facet. -/
def tagSwitch (record : IndexRecord) : MatchExp → Option String
  | .PackageDistributionDID => some record.Distribution.DID
  | .PackageDistributionName => some record.Distribution.Name
  | .PackageDistributionVersionCodeName => some record.Distribution.VersionCodeName
  | .PackageDistributionVersionID => some record.Distribution.VersionID
  | .PackageDistributionVersion => some record.Distribution.Version
  | .PackageDistributionArch => some record.Distribution.Arch
  | .PackageDistributionCPE => some record.Distribution.CPE
  | .PackageDistributionPrettyName => some record.Distribution.PrettyName
  | .Other _ => none

/-- The final loop of `tagQueryBuilder` writing the tags. -/
def writeTags (builder : String) (tags : List String) : String :=
  tags.foldl (fun b tag => b ++ comma ++ space ++ quote ++ tag ++ quote) builder

/-- The function `tagQueryBuilder`. -/
def tagQueryBuilder (record : IndexRecord) (matchers : List MatchExp) : Except Error String :=
  match matcherLoop (tagSwitch record) matchers [] [] with
  | .error e => .error e
  | .ok tags =>
    let builder := "" ++ openArray ++ quote ++ record.Package.Name ++ quote
    let builder :=
      if record.Package.Source.Name ≠ "" then
        builder ++ comma ++ space ++ quote ++ record.Package.Source.Name ++ quote
      else builder
    let builder := writeTags builder tags
    let builder := builder ++ closeArray
    .ok (tagSelectClause builder)

/-! ## The selector as the specification describes it -/

/-- The selector with every repeated facet removed, keeping its first
occurrence. -/
def dedupFirst : List MatchExp → List MatchExp
  | [] => []
  | m :: ms => m :: (dedupFirst ms).filter (fun x => decide (x ≠ m))

/-- The name of the distribution field a known facet selects. -/
def facetKey : MatchExp → String
  | .PackageDistributionDID => "did"
  | .PackageDistributionName => "name"
  | .PackageDistributionVersionCodeName => "version_code_name"
  | .PackageDistributionVersionID => "version_id"
  | .PackageDistributionVersion => "version"
  | .PackageDistributionArch => "arch"
  | .PackageDistributionCPE => "cpe"
  | .PackageDistributionPrettyName => "pretty_name"
  | .Other _ => ""

/-- The value of the distribution field a known facet selects. -/
def facetValue (d : Distribution) : MatchExp → String
  | .PackageDistributionDID => d.DID
  | .PackageDistributionName => d.Name
  | .PackageDistributionVersionCodeName => d.VersionCodeName
  | .PackageDistributionVersionID => d.VersionID
  | .PackageDistributionVersion => d.Version
  | .PackageDistributionArch => d.Arch
  | .PackageDistributionCPE => d.CPE
  | .PackageDistributionPrettyName => d.PrettyName
  | .Other _ => ""

/-- The containment test of a stored vulnerability against one attribute of one
envelope. -/
def containment (envelope key value : String) : String :=
  "vulnerability @> " ++
    ("\x27\x7b\"" ++ envelope ++ "\": \x7b \"" ++ key ++ "\": \"" ++ value ++ "\"\x7d\x7d\x27")

/-- The package-name test: on the package name alone, or joined by `OR` with the
test on the source package name when there is one. -/
def packageNameTest (p : Package) : String :=
  if p.Source.Name = "" then containment "package" "name" p.Name ++ " "
  else containment "package" "name" p.Name ++ " OR " ++ containment "package" "name" p.Source.Name

/-- The columns the tag query selects after `id`. -/
def tagColumns : List String :=
  ["name", "description", "links", "severity", "package_name", "package_version",
   "package_kind", "dist_id", "dist_name", "dist_version", "dist_version_code_name",
   "dist_version_id", "dist_arch", "dist_cpe", "dist_pretty_name", "repo_name", "repo_key",
   "repo_uri", "fixed_in_version"]

/-- The tag query for an array of tags: `id` and every column on a line of its
own after two tabs, then the test that the stored tags contain the array. -/
def tagQueryText (tagsArray : String) : String :=
  "SELECT id" ++ String.join (tagColumns.map (fun c => ",\n\t\t" ++ c))
    ++ "\n\t\tFROM vuln WHERE tags @> \x27" ++ tagsArray ++ "\x27"

/-- The tags of the package: its name, then its source name when there is one. -/
def packageTags (p : Package) : String :=
  if p.Source.Name = "" then "\"" ++ p.Name ++ "\""
  else "\"" ++ p.Name ++ "\", \"" ++ p.Source.Name ++ "\""

/-- One facet clause of the JSON query. -/
def facetClause (record : IndexRecord) (m : MatchExp) : String :=
  "AND " ++ containment "dist" (facetKey m) (facetValue record.Distribution m) ++ " "

/-! ## getvulnerabilities.go -/

/-- The options of a query (`vulnstore.GetOpts`): the selector. -/
structure GetOpts where
  Matchers : List MatchExp

/-- A row of a query result: the nullable `id` column, and what scanning the
`vulnerability` column into a vulnerability gives. -/
structure Row where
  id : Option Int
  vulnerability : Except Error Vulnerability

/-- The database as `get` sees it: whether a transaction can begin, the rows or
the error each query yields, and the errors of closing the batch results and of
committing. -/
structure Pool where
  Begin : Option Error
  Query : String → Except Error (List Row)
  Close : Option Error
  Commit : Option Error

/-- The results of a sent batch that are still to be read, one per queued query
in queue order (`pgx.BatchResults`). -/
abbrev BatchResults := List (Except Error (List Row))

/-- The call `tx.SendBatch`: the database answers every queued query. -/
def SendBatch (pool : Pool) (batch : List String) : BatchResults :=
  batch.map pool.Query

/-- The call `res.Query()`: the next unread result; reading past the last one
is the error `no result`. -/
def BatchResults.next : BatchResults → Except Error (List Row) × BatchResults
  | [] => (.error (.msg "no result"), [])
  | r :: rest => (r, rest)

/-- The result map `map[int][]*claircore.Vulnerability`, as the list of its
entries in order of first insertion; keys are unique. -/
abbrev Results := List (Int × List Vulnerability)

/-- The map lookup `results[k]`. -/
def Results.lookup : Results → Int → Option (List Vulnerability)
  | [], _ => none
  | (k', v) :: rest, k => if k' = k then some v else Results.lookup rest k

/-- The map assignment `results[k] = v`. -/
def Results.assign : Results → Int → List Vulnerability → Results
  | [], k, v => [(k, v)]
  | (k', v') :: rest, k, v =>
    if k' = k then (k', v) :: rest else (k', v') :: Results.assign rest k v

/-- The loop `for rows.Next()` of `get` for one record. -/
def scanRows (record : IndexRecord) : List Row → Results → Except Error Results
  | [], results => .ok results
  | row :: rows, results =>
    match row.vulnerability with
    | .error err => .error (.msg ("failed to scan vulnerability: " ++ err.text))
    | .ok v =>
      let v := { v with ID := row.id.getD 0 }
      match results.lookup record.Package.ID with
      | none => scanRows record rows (results.assign record.Package.ID [v])
      | some vvulns => scanRows record rows (results.assign record.Package.ID (vvulns ++ [v]))

/-- The second loop of `get`: one `res.Query()` per record of the input. -/
def gather : List IndexRecord → BatchResults → Results → Except Error Results
  | [], _, results => .ok results
  | record :: records, res, results =>
    match res.next with
    | (.error err, _) => .error err
    | (.ok rows, res) =>
      match scanRows record rows results with
      | .error err => .error err
      | .ok results => gather records res results

/-- The first loop of `get`: one query queued per record with a package name. -/
def queueQueries (matchers : List MatchExp) :
    List IndexRecord → List String → Except Error (List String)
  | [], batch => .ok batch
  | record :: records, batch =>
    if record.Package.Name = "" then queueQueries matchers records batch
    else
      match jsonQueryBuilder record matchers with
      | .error err => .error (.wrap ("error building json query string: " ++ err.text) err)
      | .ok query => queueQueries matchers records (batch ++ [query])

/-- What a call of `get` returns and the batches it sent to the database. -/
structure GetOutcome where
  result : Except Error Results
  sent : List (List String)

/-- The function `get`. -/
def get (pool : Pool) (records : List IndexRecord) (opts : GetOpts) : GetOutcome :=
  match pool.Begin with
  | some err => ⟨.error err, []⟩
  | none =>
    match queueQueries opts.Matchers records [] with
    | .error err => ⟨.error err, []⟩
    | .ok batch =>
      let res := SendBatch pool batch
      match gather records res [] with
      | .error err => ⟨.error err, [batch]⟩
      | .ok results =>
        match pool.Close with
        | some err => ⟨.error (.msg ("some weird batch error: " ++ err.text)), [batch]⟩
        | none =>
          match pool.Commit with
          | some err => ⟨.error (.msg ("failed to commit tx: " ++ err.text)), [batch]⟩
          | none => ⟨.ok results, [batch]⟩

/-- The vulnerability `get` builds from a row: the scanned document with the id
of the row attached. -/
def Row.decoded (row : Row) : Option Vulnerability :=
  match row.vulnerability with
  | .error _ => none
  | .ok v => some { v with ID := row.id.getD 0 }

/-- The rows the database returns for the query of a record, each as the
vulnerability built from it (empty when the query cannot be built or fails). -/
def rowsOf (pool : Pool) (opts : GetOpts) (record : IndexRecord) : List Vulnerability :=
  match jsonQueryBuilder record opts.Matchers with
  | .error _ => []
  | .ok query =>
    match pool.Query query with
    | .error _ => []
    | .ok rows => rows.filterMap Row.decoded

/-- The database answers the query of a record: it returns rows, and every row
scans. -/
def answered (pool : Pool) (opts : GetOpts) (record : IndexRecord) : Prop :=
  ∀ query, jsonQueryBuilder record opts.Matchers = .ok query →
    ∃ rows, pool.Query query = .ok rows ∧ ∀ row ∈ rows, ∃ v, row.vulnerability = .ok v

/-- The entry of a map after the list `l` has been appended under its key: left
alone when `l` is empty. -/
def extend (entry : Option (List Vulnerability)) (l : List Vulnerability) :
    Option (List Vulnerability) :=
  if l = [] then entry else some (entry.getD [] ++ l)

/-! ## putvulnerabilities.go -/

/-- A random UUID: its sixteen bytes. -/
structure UUID where
  bytes : List (Fin 256)
  size : bytes.length = 16

/-- The two lower-case hexadecimal digits of each byte. -/
def encodeHex (bs : List (Fin 256)) : List Char :=
  bs.flatMap (fun b => [Nat.digitChar (b.val / 16), Nat.digitChar (b.val % 16)])

/-- The method `UUID.String`: the form `xxxxxxxx-xxxx-xxxx-xxxx-xxxxxxxxxxxx`. -/
def UUID.String (u : UUID) : String :=
  String.mk (encodeHex (u.bytes.take 4) ++ [Char.ofNat 0x2d]
    ++ encodeHex ((u.bytes.drop 4).take 2) ++ [Char.ofNat 0x2d]
    ++ encodeHex ((u.bytes.drop 6).take 2) ++ [Char.ofNat 0x2d]
    ++ encodeHex ((u.bytes.drop 8).take 2) ++ [Char.ofNat 0x2d]
    ++ encodeHex (u.bytes.drop 10))

/-- A row of table `vuln`, in the columns the statements of this file write and
read. -/
structure VulnRow where
  updater : String
  vulnerability : Vulnerability
  tombstone : String
  deriving DecidableEq, Repr

/-- A row of table `updatecursor`; `updater` is its primary key. -/
structure CursorRow where
  updater : String
  hash : String
  tombstone : String
  deriving DecidableEq, Repr

/-- The two tables of the store. -/
structure Database where
  vuln : List VulnRow
  updatecursor : List CursorRow
  deriving DecidableEq, Repr

/-- The primary key of `updatecursor`: no two rows share an updater. -/
def Database.wellFormed (db : Database) : Prop :=
  (db.updatecursor.map (fun r => r.updater)).Nodup

/-- What the environment decides during one call of `putVulnerabilities`: the
UUID drawn, and for every database round trip whether and how it fails. An
insert may fail for any reason, a violated unique constraint included. -/
structure PutEnv where
  selectTombstone : Option Error
  uuid : UUID
  Begin : Option Error
  insert : Nat → Option Error
  deadline : Nat → Bool
  delete : Option Error
  upsert : Option Error
  Commit : Option Error

/-- The statement `selectTombstone` scanned into `oldTombstone`: the tombstone of
the cursor row of the updater, and the empty string on `pgx.ErrNoRows`. -/
def oldTombstoneOf (db : Database) (updater : String) : String :=
  match db.updatecursor.find? (fun r => decide (r.updater = updater)) with
  | some r => r.tombstone
  | none => ""

/-- The statement `insertVulnerability` executed in the transaction. -/
def execInsert (tx : Database) (args : String × Vulnerability × String) : Database :=
  { tx with vuln := tx.vuln ++ [⟨args.1, args.2.1, args.2.2⟩] }

/-- The statement `deleteTombstonedVulns` executed in the transaction. -/
def execDelete (tx : Database) (tombstone : String) : Database :=
  { tx with vuln := tx.vuln.filter (fun r => decide (r.tombstone ≠ tombstone)) }

/-- The statement `upsertUpdateCurosr` executed in the transaction: the row of
the updater is overwritten on conflict, and inserted otherwise. -/
def execUpsert (tx : Database) (updater hash tombstone : String) : Database :=
  if tx.updatecursor.any (fun r => decide (r.updater = updater)) then
    { tx with updatecursor := tx.updatecursor.map (fun r =>
        if r.updater = updater then { r with hash := hash, tombstone := tombstone } else r) }
  else { tx with updatecursor := tx.updatecursor ++ [⟨updater, hash, tombstone⟩] }

/-- Modelled from the spec: package `microbatch` is not among the sources. The
batcher holds the queued inserts, each with the number of the `Queue` call that
brought it. -/
structure Insert where
  pending : List (Nat × String × Vulnerability × String)

/-- Modelled from the spec: sending a batch executes its inserts in order in the
transaction; the first failing insert fails the batch. -/
def sendBatch (env : PutEnv) :
    List (Nat × String × Vulnerability × String) → Database → Except Error Database
  | [], tx => .ok tx
  | (k, args) :: rest, tx =>
    match env.insert k with
    | some err => .error err
    | none => sendBatch env rest (execInsert tx args)

/-- Modelled from the spec: `Queue` adds an insert to the batch and flushes the
batch when it has reached the size cap or the flush deadline has passed. -/
def Insert.Queue (env : PutEnv) (batchSize : Nat) (call : Nat) (b : Insert) (tx : Database)
    (args : String × Vulnerability × String) : Except Error (Insert × Database) :=
  let pending := b.pending ++ [(call, args)]
  if pending.length ≥ batchSize ∨ env.deadline call = true then
    match sendBatch env pending tx with
    | .error err => .error err
    | .ok tx => .ok (⟨[]⟩, tx)
  else .ok (⟨pending⟩, tx)

/-- Modelled from the spec: `Done` flushes what is left in the batch. -/
def Insert.Done (env : PutEnv) (b : Insert) (tx : Database) : Except Error Database :=
  sendBatch env b.pending tx

/-- The nil envelopes of a vulnerability replaced by empty ones. -/
def fillEnvelopes (vuln : Vulnerability) : Vulnerability :=
  { vuln with
    Package := some (vuln.Package.getD ⟨0, "", "", "", ⟨""⟩⟩)
    Dist := some (vuln.Dist.getD ⟨"", "", "", "", "", "", "", ""⟩)
    Repo := some (vuln.Repo.getD ⟨0, "", "", ""⟩) }

/-- The loop of `putVulnerabilities` over the vulnerabilities. -/
def queueVulns (env : PutEnv) (updater newTombstone : String) :
    List Vulnerability → Nat → Insert → Database → Except Error (Insert × Database)
  | [], _, mBatcher, tx => .ok (mBatcher, tx)
  | vuln :: vulns, call, mBatcher, tx =>
    match mBatcher.Queue env 2000 call tx (updater, fillEnvelopes vuln, newTombstone) with
    | .error err => .error (.msg ("failed to queue vulnerability: " ++ err.text))
    | .ok (mBatcher, tx) => queueVulns env updater newTombstone vulns (call + 1) mBatcher tx

/-- The statements of `putVulnerabilities` from the first `Queue` to the upsert,
run on the transaction. -/
def putInTx (env : PutEnv) (tx : Database) (updater hash oldTombstone newTombstone : String)
    (vulns : List Vulnerability) : Except Error Database :=
  match queueVulns env updater newTombstone vulns 0 ⟨[]⟩ tx with
  | .error err => .error err
  | .ok (mBatcher, tx) =>
    match mBatcher.Done env tx with
    | .error err =>
      .error (.msg ("failed to finish batch vulnerability insert: " ++ err.text))
    | .ok tx =>
      let deleted : Except Error Database :=
        if oldTombstone ≠ "" then
          match env.delete with
          | some err =>
            .error (.msg ("failed to remove tombstoned records. tx rollback: " ++ err.text))
          | none => .ok (execDelete tx oldTombstone)
        else .ok tx
      match deleted with
      | .error err => .error err
      | .ok tx =>
        match env.upsert with
        | some err => .error (.msg ("failed to update updatecursor. tx rollback: " ++ err.text))
        | none => .ok (execUpsert tx updater hash newTombstone)

/-- The function `putVulnerabilities`: the error returned (`none` for nil) and
the database after the call. The transaction works on a copy of the tables that
replaces them on commit and is dropped by the deferred rollback otherwise. -/
def putVulnerabilities (env : PutEnv) (db : Database) (updater hash : String)
    (vulns : List Vulnerability) : Option Error × Database :=
  match env.selectTombstone with
  | some err => (some (.msg ("failed to retrieve current tombstone: " ++ err.text)), db)
  | none =>
    let oldTombstone := oldTombstoneOf db updater
    let newTombstone := env.uuid.String
    match env.Begin with
    | some err => (some (.msg ("unable to start transaction: " ++ err.text)), db)
    | none =>
      match putInTx env db updater hash oldTombstone newTombstone vulns with
      | .error err => (some err, db)
      | .ok tx =>
        match env.Commit with
        | some err => (some (.msg ("failed to commit transaction: " ++ err.text)), db)
        | none => (none, tx)

/-- The row an insert writes. -/
def insertedRow (p : Nat × String × Vulnerability × String) : VulnRow :=
  ⟨p.2.1, p.2.2.1, p.2.2.2⟩

/-- The inserts numbered below `call` have been executed without failing, or
are still in the batch. -/
def batchInv (env : PutEnv) (b : Insert) (call : Nat) : Prop :=
  ∀ i < call, env.insert i = none ∨ ∃ p ∈ b.pending, p.1 = i

/-! ## libvuln/updates/manager.go -/

/-- A fingerprint: bytes the updater chooses, never inspected. -/
abbrev Fingerprint := String

/-- A configuration blob handed to `Configure` (`driver.ConfigUnmarshaler`). -/
abbrev ConfigUnmarshaler := String

/-- The type `Configs`, a map from names to configuration blobs. -/
abbrev Configs := List (String × ConfigUnmarshaler)

/-- The map lookup `configs[name]`; a nil map has no entries. -/
def Configs.lookup : Option Configs → String → Option ConfigUnmarshaler
  | none, _ => none
  | some [], _ => none
  | some ((k, v) :: rest), name =>
    if k = name then some v else Configs.lookup (some rest) name

/-- One entry of the history of an updater. -/
structure UpdateOperation where
  Fingerprint : Fingerprint
  Ref : String
  deriving DecidableEq, Repr

/-- What `Fetch` returns: the fetched database (nil or its contents), the new
fingerprint and the error. -/
structure FetchResult where
  vulnDB : Option String
  newFP : Fingerprint
  err : Option Error

/-- An updater (`driver.Updater`), with `Configure` present when it implements
`driver.Configurable`. -/
structure Updater where
  Name : String
  Fetch : Fingerprint → FetchResult
  Parse : Option String → Except Error (List Vulnerability)
  Configure : Option (ConfigUnmarshaler → Option Error)

/-- The store as the manager uses it (`vulnstore.Updater`), over a state `σ`:
reading the operations does not change the state, updating may. -/
structure Store (σ : Type) where
  GetUpdateOperations : σ → String → Except Error (String → List UpdateOperation)
  UpdateVulnerabilities :
    σ → String → Fingerprint → List Vulnerability → Except Error String × σ

/-- The calls `driveUpdater` makes on the store and on the updater. -/
inductive Call where
  | GetUpdateOperations (name : String)
  | Fetch (prevFP : Fingerprint)
  | Parse (vulnDB : Option String)
  | UpdateVulnerabilities (name : String) (newFP : Fingerprint) (vulns : List Vulnerability)
  | Close
  deriving DecidableEq, Repr

/-- What `driveUpdater` returns (`none` for nil), the store after it and the
calls it made, in order. -/
structure DriveOutcome (σ : Type) where
  result : Option Error
  store : σ
  calls : List Call

/-- The deferred `vulnDB.Close()`, registered when the fetched database is not
nil. -/
def deferClose (vulnDB : Option String) : List Call :=
  match vulnDB with
  | some _ => [.Close]
  | none => []

/-- The previous fingerprint: that of the first operation of the updater, and
the empty fingerprint when it has none. -/
def prevFPOf (ops : List UpdateOperation) : Fingerprint :=
  match ops with
  | op :: _ => op.Fingerprint
  | [] => ""

/-- The method `Manager.driveUpdater`. -/
def driveUpdater {σ : Type} (store : Store σ) (s : σ) (u : Updater) : DriveOutcome σ :=
  let name := u.Name
  match store.GetUpdateOperations s name with
  | .error err => ⟨some err, s, [.GetUpdateOperations name]⟩
  | .ok opmap =>
    let prevFP := prevFPOf (opmap name)
    let fetched := u.Fetch prevFP
    let calls := [Call.GetUpdateOperations name, Call.Fetch prevFP]
    match fetched.err with
    | some err =>
      if err.isUnchanged then ⟨none, s, calls ++ deferClose fetched.vulnDB⟩
      else ⟨some err, s, calls ++ deferClose fetched.vulnDB⟩
    | none =>
      match u.Parse fetched.vulnDB with
      | .error err =>
        ⟨some (.msg ("failed to parse the fetched vulnerability database: " ++ err.text)), s,
          calls ++ [.Parse fetched.vulnDB] ++ deferClose fetched.vulnDB⟩
      | .ok vulns =>
        match store.UpdateVulnerabilities s name fetched.newFP vulns with
        | (.error err, s') =>
          ⟨some (.msg ("failed to update vulnerabilities: " ++ err.text)), s',
            calls ++ [.Parse fetched.vulnDB, .UpdateVulnerabilities name fetched.newFP vulns]
              ++ deferClose fetched.vulnDB⟩
        | (.ok _, s') =>
          ⟨none, s',
            calls ++ [.Parse fetched.vulnDB, .UpdateVulnerabilities name fetched.newFP vulns]
              ++ deferClose fetched.vulnDB⟩

/-- A factory of updater sets (`driver.UpdaterSetFactory`): the updaters of the
set it builds, or its error; `Configure` is present when it implements
`driver.Configurable`. -/
structure UpdaterSetFactory where
  UpdaterSet : Except Error (List Updater)
  Configure : Option (ConfigUnmarshaler → Option Error)

/-- A distributed lock (`distlock.Locker`) over a state `κ`. -/
structure Locker (κ : Type) where
  TryLock : κ → String → Except Error Bool × κ
  Unlock : κ → κ

/-- The type `LockerMock` of `locker.go`: every attempt acquires the lock. -/
def LockerMock : Locker Unit where
  TryLock := fun _ _ => (.ok true, ())
  Unlock := fun _ => ()

/-- The struct `Manager`; `factories` is a map, held as the list of its entries,
and `configs` is nil until it is set. -/
structure Manager (σ κ : Type) where
  factories : List (String × UpdaterSetFactory)
  workers : Int
  store : Store σ
  interval : Int
  updaters : List Updater
  configs : Option Configs
  lock : Locker κ

/-- The two nested loops of `NewManager` over the enabled names and the
factories: every factory whose name equals an enabled name is deleted. -/
def filterEnabled (factories : List (String × UpdaterSetFactory)) :
    List String → List (String × UpdaterSetFactory)
  | [] => factories
  | enable :: rest =>
    filterEnabled (factories.filter (fun entry => decide (entry.1 ≠ enable))) rest

/-- Modelled from the spec: function `Configure` of package `updater` is not
among the sources. It walks the factories; a configurable factory with a config
under its name is configured with it, and a failure is fatal. -/
def Configure (factories : List (String × UpdaterSetFactory)) (configs : Option Configs) :
    Option Error :=
  match factories with
  | [] => none
  | (name, fac) :: rest =>
    match fac.Configure, Configs.lookup configs name with
    | some f, some cfg =>
      match f cfg with
      | some err => some err
      | none => Configure rest configs
    | _, _ => Configure rest configs

/-- Modelled from the spec: `UpdaterSet.Add` of package `driver` is not among
the sources. An updater whose name is in the set already is rejected. -/
def updaterSetAdd (us : List Updater) (u : Updater) : List Updater :=
  if us.any (fun v => decide (v.Name = u.Name)) then us else us ++ [u]

/-- Modelled from the spec: `driver.StaticSet`, the factory of a fixed set. -/
def StaticSet (us : List Updater) : UpdaterSetFactory :=
  ⟨.ok us, none⟩

/-- The map assignment `factories[name] = fac`. -/
def setFactory (factories : List (String × UpdaterSetFactory)) (name : String)
    (fac : UpdaterSetFactory) : List (String × UpdaterSetFactory) :=
  if factories.any (fun entry => decide (entry.1 = name)) then
    factories.map (fun entry => if entry.1 = name then (name, fac) else entry)
  else factories ++ [(name, fac)]

/-- The function `NewManager`; `registered` is what `updater.Registered()`
returns and `enabled` is `none` for a nil slice. -/
def NewManager {σ κ : Type} (registered : List (String × UpdaterSetFactory))
    (store : Store σ) (lock : Locker κ) (workers : Int) (interval : Int)
    (enabled : Option (List String)) (configs : Option Configs) (outOfTree : List Updater) :
    Except Error (Manager σ κ) :=
  let factories := filterEnabled registered (enabled.getD [])
  match Configure factories configs with
  | some err => .error err
  | none =>
    let factories :=
      if outOfTree.length ≠ 0 then
        setFactory factories "outOfTree" (StaticSet (outOfTree.foldl updaterSetAdd []))
      else factories
    .ok { store := store, factories := factories, workers := workers, interval := interval,
          lock := lock, updaters := [], configs := none }

/-- A context as `Run` uses it: what the call `ctx.Err()` returns before the
chunk of each number (`none` for nil). -/
structure Context where
  Err : Nat → Option Error

/-- How the task of one updater ends. -/
inductive TaskOutcome where
  | lockError (err : Error)
  | notAcquired
  | drove (result : Option Error)
  deriving DecidableEq, Repr

/-- What happens during the chunk loop of `Run`: a context check before a chunk
with what it returned, and the task of the updater at an index. -/
inductive RunEvent where
  | check (err : Option Error)
  | task (j : Int) (name : String) (outcome : TaskOutcome)
  deriving DecidableEq, Repr

/-- The event reports an error: a context check that returned one, a failed
`TryLock`, or a `driveUpdater` that returned one. -/
def RunEvent.isError : RunEvent → Bool
  | .check (some _) => true
  | .check none => false
  | .task _ _ (.lockError _) => true
  | .task _ _ .notAcquired => false
  | .task _ _ (.drove (some _)) => true
  | .task _ _ (.drove none) => false

/-- The state threaded through the chunk loop: the store, the lock, the errors
sent on `errChan` and the events so far. -/
structure RunState (σ κ : Type) where
  store : σ
  lock : κ
  errChan : List Error
  log : List RunEvent

/-- The body of the goroutine started for the updater at index `j`. -/
def updateTask {σ κ : Type} (m : Manager σ κ) (st : RunState σ κ) (j : Int) (u : Updater) :
    RunState σ κ :=
  match m.lock.TryLock st.lock u.Name with
  | (.error err, lock) =>
    { st with lock := lock, errChan := st.errChan ++ [err],
              log := st.log ++ [.task j u.Name (.lockError err)] }
  | (.ok false, lock) =>
    { st with lock := lock, log := st.log ++ [.task j u.Name .notAcquired] }
  | (.ok true, lock) =>
    let d := driveUpdater m.store st.store u
    let errChan :=
      match d.result with
      | some err => st.errChan ++ [.msg (u.Name ++ ": " ++ err.text ++ "\n")]
      | none => st.errChan
    { store := d.store, lock := m.lock.Unlock lock, errChan := errChan,
      log := st.log ++ [.task j u.Name (.drove d.result)] }

/-- The element `m.updaters[j]`, `none` when the index is out of range. -/
def updaterAt (updaters : List Updater) (j : Int) : Option Updater :=
  if 0 ≤ j then updaters.get? j.toNat else none

/-- The inner loop `for j := i; j < end; j++` with the wait for its goroutines,
which run here one after the other in index order. -/
def runChunk {σ κ : Type} (m : Manager σ κ) (updaters : List Updater) (i stop : Int)
    (st : RunState σ κ) : RunState σ κ :=
  (List.range (stop - i).toNat).foldl
    (fun st (d : Nat) =>
      match updaterAt updaters (i + (d : Int)) with
      | some u => updateTask m st (i + (d : Int)) u
      | none => st)
    st

/-- The loop `for i := 0; i < len(m.updaters); i += m.workers`, with `fuel`
bounding the number of iterations, `i` the loop variable and `k` the number of
the chunk; `none` when the fuel runs out before the loop ends. -/
def chunkLoop {σ κ : Type} (m : Manager σ κ) (ctx : Context) (updaters : List Updater) :
    Nat → Int → Nat → RunState σ κ → Option (RunState σ κ)
  | 0, _, _, _ => none
  | fuel + 1, i, k, st =>
    if i < (updaters.length : Int) then
      match ctx.Err k with
      | some err =>
        some { st with errChan := st.errChan ++ [err], log := st.log ++ [.check (some err)] }
      | none =>
        let stop := if i + m.workers ≥ (updaters.length : Int) then (updaters.length : Int)
          else i + m.workers
        let st := runChunk m updaters i stop { st with log := st.log ++ [.check none] }
        chunkLoop m ctx updaters fuel (i + m.workers) (k + 1) st
    else some st

/-- The first loop of `Run`: the updaters of every factory appended in turn, or
the error of the first factory that fails. -/
def constructUpdaters :
    List (String × UpdaterSetFactory) → List Updater → Except Error (List Updater)
  | [], updaters => .ok updaters
  | (_, factory) :: rest, updaters =>
    match factory.UpdaterSet with
    | .error err => .error err
    | .ok set => constructUpdaters rest (updaters ++ set)

/-- The second loop of `Run`: for every configurable updater with a config under
its name, the call of `Configure` made (name, config, what it returned). -/
def reconfigure (configs : Option Configs) :
    List Updater → List (String × ConfigUnmarshaler × Option Error)
  | [] => []
  | u :: rest =>
    match u.Configure, Configs.lookup configs u.Name with
    | some f, some cfg => (u.Name, cfg, f cfg) :: reconfigure configs rest
    | _, _ => reconfigure configs rest

/-- The error built from a non-empty `errChan`. -/
def updatingErrors (errs : List Error) : Error :=
  .msg (errs.foldl (fun b err => b ++ err.text ++ "\n") ("" ++ "updating errors:\n"))

/-- What `Run` returns (`none` for nil), the store and the lock after it, the
flattened updaters, the `Configure` calls and the events of the chunk loop. -/
structure RunOutcome (σ κ : Type) where
  result : Option Error
  store : σ
  lock : κ
  updaters : List Updater
  configured : List (String × ConfigUnmarshaler × Option Error)
  log : List RunEvent

/-- The method `Manager.Run` from store state `s` and lock state `l`; `none`
when the chunk loop has not ended within `fuel` iterations. -/
def Run {σ κ : Type} (m : Manager σ κ) (ctx : Context) (fuel : Nat) (s : σ) (l : κ) :
    Option (RunOutcome σ κ) :=
  match constructUpdaters m.factories [] with
  | .error err => some ⟨some err, s, l, [], [], []⟩
  | .ok updaters =>
    let configured := reconfigure m.configs updaters
    match chunkLoop m ctx updaters fuel 0 0 ⟨s, l, [], []⟩ with
    | none => none
    | some st =>
      if st.errChan.length ≠ 0 then
        some ⟨some (updatingErrors st.errChan), st.store, st.lock, updaters, configured, st.log⟩
      else some ⟨none, st.store, st.lock, updaters, configured, st.log⟩

/-- The index of the updater a task event is for; `none` for a context check. -/
def RunEvent.index : RunEvent → Option Int
  | .check _ => none
  | .task j _ _ => some j

/-- The task event carries the name of the updater at its index. -/
def RunEvent.attempts (updaters : List Updater) : RunEvent → Bool
  | .check _ => true
  | .task j name _ => (updaterAt updaters j).map (fun u => u.Name) == some name

/-- The events of the chunk loop grouped by chunk: the task indices before the
first context check, and for every check the task indices up to the next. -/
def chunksOf : List RunEvent → List Int × List (List Int)
  | [] => ([], [])
  | .task j _ _ :: rest => (j :: (chunksOf rest).1, (chunksOf rest).2)
  | .check _ :: rest => ([], (chunksOf rest).1 :: (chunksOf rest).2)

/-- The indices `k*workers` up to `min((k+1)*workers, n) - 1`, in order. -/
def chunkIndices (n workers k : Nat) : List Int :=
  (List.range (min ((k + 1) * workers) n - k * workers)).map
    (fun d => ((k * workers + d : Nat) : Int))

/-- One attempt on an updater as the specification describes it, from the store
`s` and the lock `l`: `TryLock` on the name of the updater, then `driveUpdater`
if the lock was acquired, and the lock released after it. It gives the store and
the lock afterwards and how the attempt ended. -/
def attempt {σ κ : Type} (m : Manager σ κ) (s : σ) (l : κ) (u : Updater) :
    σ × κ × TaskOutcome :=
  match m.lock.TryLock l u.Name with
  | (.error err, l1) => (s, l1, .lockError err)
  | (.ok false, l1) => (s, l1, .notAcquired)
  | (.ok true, l1) =>
    ((driveUpdater m.store s u).store, m.lock.Unlock l1,
      .drove (driveUpdater m.store s u).result)

/-- Every updater of a list attempted once, one after the other, the first under
index `j`: the store and the lock afterwards, and one task event per updater. -/
def attemptAll {σ κ : Type} (m : Manager σ κ) :
    List Updater → Int → σ → κ → σ × κ × List RunEvent
  | [], _, s, l => (s, l, [])
  | u :: rest, j, s, l =>
    let r := attempt m s l u
    let rs := attemptAll m rest (j + 1) r.1 r.2.1
    (rs.1, rs.2.1, .task j u.Name r.2.2 :: rs.2.2)

/-- Why a context is done, and so what `ctx.Err()` returns from then on. -/
inductive Cancellation where
  | Canceled
  | DeadlineExceeded
  deriving DecidableEq, Repr

/-- The error `ctx.Err()` returns for a context that is done. -/
def Cancellation.err : Cancellation → Error
  | .Canceled => .msg "context canceled"
  | .DeadlineExceeded => .msg "context deadline exceeded"

/-- What the `select` of `Start` receives: a tick of the ticker, or the end of
the context. -/
inductive Signal where
  | tick
  | done (reason : Cancellation)
  deriving DecidableEq, Repr

/-- How a call of `Start` stands: it returned an error, it panicked, it waits
in `select` with nothing more to receive, or it is inside a `Run` that has not
ended. -/
inductive StartResult where
  | returned (err : Error)
  | panicked (text : String)
  | waiting
  | running
  deriving DecidableEq, Repr

/-- The result of `Start`, whether a ticker was created, the number of calls of
`Run`, and the store and the lock afterwards. -/
structure StartOutcome (σ κ : Type) where
  result : StartResult
  ticker : Bool
  runs : Nat
  store : σ
  lock : κ

/-- The standard library function `time.NewTicker`: it panics unless the
duration is positive. -/
def NewTicker (d : Int) : Except String Unit :=
  if d ≤ 0 then .error "non-positive interval for NewTicker" else .ok ()

/-- The loop `for { select { ... } }` of `Start` over the signals received;
every tick calls `Run`, whose result is dropped, with `fuel` for its chunk
loop. -/
def startLoop {σ κ : Type} (m : Manager σ κ) (ctx : Context) (fuel : Nat) :
    List Signal → σ → κ → Nat → StartOutcome σ κ
  | [], s, l, runs => ⟨.waiting, true, runs, s, l⟩
  | .done reason :: _, s, l, runs => ⟨.returned reason.err, true, runs, s, l⟩
  | .tick :: rest, s, l, runs =>
    match Run m ctx fuel s l with
    | none => ⟨.running, true, runs + 1, s, l⟩
    | some out => startLoop m ctx fuel rest out.store out.lock (runs + 1)

/-- The method `Manager.Start`. -/
def Start {σ κ : Type} (m : Manager σ κ) (ctx : Context) (fuel : Nat)
    (signals : List Signal) (s : σ) (l : κ) : StartOutcome σ κ :=
  if m.interval = 0 then
    ⟨.returned (.msg "manager must be configured with an interval to start"), false, 0, s, l⟩
  else
    match NewTicker m.interval with
    | .error text => ⟨.panicked text, false, 0, s, l⟩
    | .ok _ => startLoop m ctx fuel signals s l 0

/-! ## libvuln/opts.go -/

/-- A `time.Duration`: a signed 64-bit count of nanoseconds. -/
abbrev Duration := Int

def Nanosecond : Duration := 1
def Microsecond : Duration := 1000 * Nanosecond
def Millisecond : Duration := 1000 * Microsecond
def Second : Duration := 1000 * Millisecond
def Minute : Duration := 60 * Second

def minDuration : Duration := -(2 ^ 63)
def maxDuration : Duration := 2 ^ 63 - 1

/-- Signed 64-bit wrap-around of an integer. -/
def wrap64 (x : Int) : Int := (x + 2 ^ 63) % 2 ^ 64 - 2 ^ 63

/-- The standard library function `lessThanHalf`: `uint64(x)+uint64(x) <
uint64(y)`. -/
def lessThanHalf (x y : Duration) : Bool :=
  decide ((x % 2 ^ 64 + x % 2 ^ 64) % 2 ^ 64 < y % 2 ^ 64)

/-- The standard library method `Duration.Round`: `d` rounded to the nearest
multiple of `m`, halfway values away from zero. -/
def Duration.Round (d m : Duration) : Duration :=
  if m ≤ 0 then d
  else
    let r := Int.tmod d m
    if d < 0 then
      let r := -r
      if lessThanHalf r m then wrap64 (d + r)
      else
        let d1 := wrap64 (d - m + r)
        if d1 < d then d1 else minDuration
    else if lessThanHalf r m then wrap64 (d - r)
    else
      let d1 := wrap64 (d + m - r)
      if d1 > d then d1 else maxDuration

def DefaultUpdateInterval : Duration := 30 * Minute
def DefaultUpdateWorkers : Int := 10
def DefaultMaxConnPool : Int := 50

/-- The struct `Opts`; a matcher is held by its name, and a nil slice, map,
function or client is `none`. -/
structure Opts where
  MaxConnPool : Int
  ConnString : String
  UpdateInterval : Duration
  Migrations : Bool
  UpdaterSets : Option (List String)
  Updaters : List Updater
  Matchers : List String
  UpdateWorkers : Int
  DisableBackgroundUpdates : Bool
  UpdaterConfigs : Option Configs
  UpdaterFilter : Option (String → Bool)
  Client : Option String

def defaultMatchers : List String :=
  ["alpine", "aws", "debian", "oracle", "photon", "python", "rhel", "suse", "ubuntu"]

/-- The constant `jitter` of `parse`. -/
def jitter : Int := 120000

/-- The offset `parse` adds to the interval for the draw `r` that
`rand.Intn(jitter)` returns. -/
def jitterOffset (r : Int) : Duration :=
  Duration.Round (wrap64 (wrap64 (r - jitter / 2) * Microsecond)) (100 * Millisecond)

/-- The method `Opts.parse`, with `r` the draw of `rand.Intn(jitter)`: the
error it returns, or the options as it leaves them. -/
def Opts.parse (o : Opts) (r : Int) : Except Error Opts :=
  if o.ConnString = "" then .error (.msg "no connection string provided")
  else
    let o :=
      if o.UpdateInterval = 0 ∨ o.UpdateInterval < Minute then
        { o with UpdateInterval := DefaultUpdateInterval }
      else o
    let ms := jitterOffset r
    let o := { o with UpdateInterval := wrap64 (o.UpdateInterval + ms) }
    let o := if o.MaxConnPool = 0 then { o with MaxConnPool := DefaultMaxConnPool } else o
    let o :=
      if o.UpdateWorkers ≤ 0 then { o with UpdateWorkers := DefaultUpdateWorkers } else o
    let o := { o with Matchers := o.Matchers ++ defaultMatchers }
    let o := if o.Client = none then { o with Client := some "http.DefaultClient" } else o
    let o := if o.UpdaterConfigs.isNone then { o with UpdaterConfigs := some [] } else o
    .ok o

/-! ## Example data -/

def exampleDist : Distribution :=
  ⟨"debian", "Debian GNU/Linux", "10 (buster)", "buster", "10", "x86_64", "", "Debian 10"⟩

/-- A record with the given package id, package name and source package name. -/
def exampleRecord (id : Int) (name source : String) : IndexRecord :=
  ⟨⟨id, name, "1.0", "binary", ⟨source⟩⟩, exampleDist, ⟨0, "", "", ""⟩⟩

/-- A vulnerability with the given name and nil envelopes. -/
def exampleVuln (name : String) : Vulnerability :=
  ⟨0, name, "", "", "", none, none, none, ""⟩

/-- A database that returns row 10 (`CVE-A`) for the query on package `bash`
with no facet, row 30 (`CVE-C`) for the one on package `zlib`, and no rows for
any other query. -/
def examplePool : Pool where
  Begin := none
  Query := fun q =>
    if q = "SELECT id, vulnerability FROM vuln WHERE (vulnerability @> \x27\x7b\"package\": \x7b \"name\": \"bash\"\x7d\x7d\x27 ) "
    then .ok [⟨some 10, .ok (exampleVuln "CVE-A")⟩]
    else if q = "SELECT id, vulnerability FROM vuln WHERE (vulnerability @> \x27\x7b\"package\": \x7b \"name\": \"zlib\"\x7d\x7d\x27 ) "
    then .ok [⟨some 30, .ok (exampleVuln "CVE-C")⟩]
    else .ok []
  Close := none
  Commit := none

/-- Three records of which only the middle one has an empty package name. -/
def threeRecords : List IndexRecord :=
  [exampleRecord 1 "bash" "", exampleRecord 2 "" "", exampleRecord 3 "zlib" ""]

/-- The UUID whose sixteen bytes all equal `b`. -/
def exampleUUID (b : Fin 256) : UUID :=
  ⟨List.replicate 16 b, List.length_replicate _ _⟩

/-- An environment in which nothing fails, drawing the given UUID. -/
def quietEnv (u : UUID) : PutEnv where
  selectTombstone := none
  uuid := u
  Begin := none
  insert := fun _ => none
  deadline := fun _ => false
  delete := none
  upsert := none
  Commit := none

/-- A store holding one snapshot of updater `alpine` under tombstone `t0`. -/
def exampleDatabase : Database where
  vuln := [⟨"alpine", exampleVuln "CVE-0", "t0"⟩]
  updatecursor := [⟨"alpine", "f0", "t0"⟩]

/-- A store with no history in which every update succeeds and changes
nothing. -/
def exampleStore : Store Unit where
  GetUpdateOperations := fun _ _ => .ok (fun _ => [])
  UpdateVulnerabilities := fun s _ _ _ => (.ok "ref", s)

/-- An updater whose `Fetch` returns the given error and whose `Parse` yields
nothing. -/
def exampleUpdater (name : String) (fetchErr : Option Error) : Updater where
  Name := name
  Fetch := fun _ => ⟨none, "fp", fetchErr⟩
  Parse := fun _ => .ok []
  Configure := none

/-- A registry of two factories, `alpine` and `debian`. -/
def exampleRegistry : List (String × UpdaterSetFactory) :=
  [("alpine", StaticSet [exampleUpdater "alpine-main" none]),
   ("debian", StaticSet [exampleUpdater "debian-buster" none])]

/-- The names of the factories of the manager `NewManager` returns (empty when
it returns an error). -/
def factoryNames {σ κ : Type} (r : Except Error (Manager σ κ)) : List String :=
  match r with
  | .ok m => m.factories.map (fun entry => entry.1)
  | .error _ => []

/-- A manager with the given factories and number of workers over the example
store and the mock lock. -/
def exampleManager (factories : List (String × UpdaterSetFactory)) (workers : Int) :
    Manager Unit Unit where
  factories := factories
  workers := workers
  store := exampleStore
  interval := 0
  updaters := []
  configs := none
  lock := LockerMock

/-- A registry of two factories that yield three updaters in all. -/
def threeUpdaterRegistry : List (String × UpdaterSetFactory) :=
  [("alpine", StaticSet [exampleUpdater "alpine-main" none,
      exampleUpdater "alpine-community" none]),
   ("debian", StaticSet [exampleUpdater "debian-buster" none])]

/-- The example manager with one worker and the given interval. -/
def intervalManager (interval : Int) : Manager Unit Unit :=
  { exampleManager exampleRegistry 1 with interval := interval }

/-- An updater that implements `Configurable`; its `Configure` succeeds. -/
def configurableUpdater (name : String) : Updater :=
  { exampleUpdater name none with Configure := some (fun _ => none) }

/-- A registry whose one factory yields one configurable updater. -/
def configurableRegistry : List (String × UpdaterSetFactory) :=
  [("alpine", StaticSet [configurableUpdater "alpine-main"])]

/-- A configs map with a config under the name of that updater. -/
def exampleConfigs : Configs := [("alpine-main", "cfg")]

/-- Options with a connection string and an interval of half an hour. -/
def exampleOpts : Opts where
  MaxConnPool := 0
  ConnString := "host=localhost"
  UpdateInterval := 30 * Minute
  Migrations := false
  UpdaterSets := none
  Updaters := []
  Matchers := []
  UpdateWorkers := 0
  DisableBackgroundUpdates := false
  UpdaterConfigs := none
  UpdaterFilter := none
  Client := none

/-- The interval `parse` leaves in the options (`none` when it fails). -/
def updateIntervalOf (r : Except Error Opts) : Option Duration :=
  match r with
  | .ok o => some o.UpdateInterval
  | .error _ => none

/-- A lock that records its calls; every `TryLock` acquires it. -/
def recordingLocker : Locker (List String) where
  TryLock := fun l name => (.ok true, l ++ ["TryLock " ++ name])
  Unlock := fun l => l ++ ["Unlock"]

/-- A store that records the updaters whose vulnerabilities it is given. -/
def recordingStore : Store (List String) where
  GetUpdateOperations := fun _ _ => .ok (fun _ => [])
  UpdateVulnerabilities := fun s name _ _ => (.ok "ref", s ++ ["UpdateVulnerabilities " ++ name])

/-- A manager with the given factories and number of workers over the recording
store and the recording lock. -/
def recordingManager (factories : List (String × UpdaterSetFactory)) (workers : Int) :
    Manager (List String) (List String) where
  factories := factories
  workers := workers
  store := recordingStore
  interval := 0
  updaters := []
  configs := none
  lock := recordingLocker

/-- A context that is never cancelled. -/
def background : Context := ⟨fun _ => none⟩

/-! ## Lemmas on the query builders -/

theorem dedupFirst_filter_comm (p : MatchExp → Bool) (m : MatchExp) (l : List MatchExp) :
    (l.filter (fun x => decide (x ≠ m))).filter p = (l.filter p).filter (fun x => decide (x ≠ m)) := by
  simp only [List.filter_filter]
  apply List.filter_congr
  intro x _
  exact Bool.and_comm _ _

theorem mem_dedupFirst (ms : List MatchExp) (x : MatchExp) : x ∈ dedupFirst ms ↔ x ∈ ms := by
  induction ms with
  | nil => simp [dedupFirst]
  | cons m ms ih =>
    simp only [dedupFirst, List.mem_cons, List.mem_filter, ih, decide_eq_true_eq]
    by_cases h : x = m <;> simp [h]

theorem nodup_dedupFirst (ms : List MatchExp) : (dedupFirst ms).Nodup := by
  induction ms with
  | nil => simp [dedupFirst]
  | cons m ms ih =>
    simp only [dedupFirst, List.nodup_cons, List.mem_filter, decide_eq_true_eq]
    exact ⟨fun h => h.2 rfl, ih.filter _⟩

theorem dedupFirst_of_nodup (ms : List MatchExp) (h : ms.Nodup) : dedupFirst ms = ms := by
  induction ms with
  | nil => rfl
  | cons m ms ih =>
    rw [List.nodup_cons] at h
    simp only [dedupFirst, ih h.2]
    congr 1
    rw [List.filter_eq_self]
    intro x hx
    simp only [decide_eq_true_eq]
    rintro rfl
    exact h.1 hx

theorem dedupFirst_idem (ms : List MatchExp) : dedupFirst (dedupFirst ms) = dedupFirst ms :=
  dedupFirst_of_nodup _ (nodup_dedupFirst ms)

/-- The matcher loop on known facets appends one string per distinct facet not
seen before, in order of first occurrence. -/
theorem matcherLoop_known (switch : MatchExp → Option String) (clause : MatchExp → String)
    (hs : ∀ m, m.known = true → switch m = some (clause m)) :
    ∀ (ms seen : List MatchExp) (acc : List String), (∀ m ∈ ms, m.known = true) →
      matcherLoop switch ms seen acc
        = .ok (acc ++ ((dedupFirst ms).filter (fun x => decide (x ∉ seen))).map clause) := by
  intro ms
  induction ms with
  | nil => intro seen acc _; simp [matcherLoop, dedupFirst]
  | cons m ms ih =>
    intro seen acc hk
    have hm : m.known = true := hk m (List.mem_cons_self _ _)
    have hk2 : ∀ x ∈ ms, x.known = true := fun x hx => hk x (List.mem_cons_of_mem _ hx)
    by_cases hseen : m ∈ seen
    · rw [matcherLoop, if_pos hseen, ih seen acc hk2]
      simp only [dedupFirst, List.filter_cons, hseen, not_true_eq_false, decide_False,
        Bool.false_eq_true, if_false, List.filter_filter]
      congr 3
      apply List.filter_congr
      intro x _
      by_cases hx : x ∈ seen
      · simp [hx]
      · have : x ≠ m := fun e => hx (e ▸ hseen)
        simp [hx, this]
    · rw [matcherLoop, if_neg hseen, hs m hm]
      simp only
      rw [ih (m :: seen) (acc ++ [clause m]) hk2]
      simp only [dedupFirst, List.filter_cons, hseen, not_false_eq_true, decide_True, if_true,
        List.map_cons, List.filter_filter, List.append_assoc, List.singleton_append]
      congr 4
      apply List.filter_congr
      intro x _
      by_cases hx : x = m <;> simp [hx, hseen]

theorem matcherLoop_known_nil (switch : MatchExp → Option String) (clause : MatchExp → String)
    (hs : ∀ m, m.known = true → switch m = some (clause m))
    (ms : List MatchExp) (hk : ∀ m ∈ ms, m.known = true) :
    matcherLoop switch ms [] [] = .ok ((dedupFirst ms).map clause) := by
  rw [matcherLoop_known switch clause hs ms [] [] hk]
  simp

theorem jsonSwitch_known (record : IndexRecord) (m : MatchExp) (h : m.known = true) :
    jsonSwitch record m
      = some (containment "dist" (facetKey m) (facetValue record.Distribution m)) := by
  cases m <;> first | rfl | simp [MatchExp.known] at h

theorem tagSwitch_known (record : IndexRecord) (m : MatchExp) (h : m.known = true) :
    tagSwitch record m = some (facetValue record.Distribution m) := by
  cases m <;> first | rfl | simp [MatchExp.known] at h

theorem foldl_append_init (a : String) (l : List String) :
    l.foldl (fun r s => r ++ s) a = a ++ String.join l := by
  induction l generalizing a with
  | nil => simp [String.join]
  | cons x xs ih =>
    have h1 := ih (a ++ x)
    have h2 := ih ("" ++ x)
    simp only [String.join, List.foldl_cons] at *
    rw [h1, h2]
    simp [String.append_assoc]

theorem foldl_append_eq (f : String → String) (a : String) (l : List String) :
    l.foldl (fun r s => r ++ f s) a = a ++ String.join (l.map f) := by
  rw [← foldl_append_init, List.foldl_map]

theorem join_cons (a : String) (l : List String) :
    String.join (a :: l) = a ++ String.join l := by
  have h := foldl_append_eq id a l
  simpa [String.join] using h

theorem writeQueries_eq (builder : String) (queries : List String) :
    writeQueries builder queries
      = builder ++ String.join (queries.map (fun q => "AND " ++ q ++ " ")) := by
  have h := foldl_append_eq (fun q => "AND " ++ q ++ " ") builder queries
  rw [← h]
  simp only [writeQueries, and, space, String.append_assoc]
  rfl

theorem writeTags_eq (builder : String) (tags : List String) :
    writeTags builder tags
      = builder ++ String.join (tags.map (fun t => ", \"" ++ t ++ "\"")) := by
  have h := foldl_append_eq (fun t => ", \"" ++ t ++ "\"") builder tags
  rw [← h]
  simp only [writeTags, comma, space, quote, String.append_assoc]
  rfl

/-- The two builders on a selector of known facets, in terms of the facets that
remain after deduplication. -/
theorem jsonLoop_known (record : IndexRecord) (ms : List MatchExp)
    (hk : ∀ m ∈ ms, m.known = true) :
    matcherLoop (jsonSwitch record) ms [] []
      = .ok ((dedupFirst ms).map
          (fun m => containment "dist" (facetKey m) (facetValue record.Distribution m))) :=
  matcherLoop_known_nil _ _ (jsonSwitch_known record) ms hk

theorem tagLoop_known (record : IndexRecord) (ms : List MatchExp)
    (hk : ∀ m ∈ ms, m.known = true) :
    matcherLoop (tagSwitch record) ms [] []
      = .ok ((dedupFirst ms).map (fun m => facetValue record.Distribution m)) :=
  matcherLoop_known_nil _ _ (tagSwitch_known record) ms hk

theorem known_dedupFirst (ms : List MatchExp) (hk : ∀ m ∈ ms, m.known = true) :
    ∀ m ∈ dedupFirst ms, m.known = true :=
  fun m hm => hk m ((mem_dedupFirst ms m).1 hm)

theorem jsonQueryBuilder_known (record : IndexRecord) (ms : List MatchExp)
    (hk : ∀ m ∈ ms, m.known = true) :
    jsonQueryBuilder record ms
      = .ok (selectClause ++ " (" ++ packageNameTest record.Package ++ ") "
          ++ String.join ((dedupFirst ms).map (facetClause record))) := by
  unfold jsonQueryBuilder
  rw [jsonLoop_known record ms hk]
  simp only [writeQueries_eq, List.map_map]
  congr 1
  have hc : ((fun q => "AND " ++ q ++ " ") ∘ fun m =>
      containment "dist" (facetKey m) (facetValue record.Distribution m)) = facetClause record := rfl
  rw [hc]
  congr 1
  unfold packageNameTest
  by_cases hsrc : record.Package.Source.Name = ""
  · simp only [hsrc, ne_eq, not_true_eq_false, if_false, if_true, space, openParen, closedParen,
      String.append_assoc, String.empty_append]
    rfl
  · simp only [hsrc, ne_eq, not_false_eq_true, if_false, if_true, space, openParen, closedParen, or,
      String.append_assoc, String.empty_append]
    rfl

set_option maxRecDepth 100000 in
theorem tagSelectClause_eq (tagsArray : String) :
    tagSelectClause tagsArray = tagQueryText tagsArray := by
  unfold tagSelectClause tagQueryText
  congr 1

theorem tagQueryBuilder_known (record : IndexRecord) (ms : List MatchExp)
    (hk : ∀ m ∈ ms, m.known = true) :
    tagQueryBuilder record ms
      = .ok (tagQueryText ("\x7b" ++ packageTags record.Package
          ++ String.join ((dedupFirst ms).map
              (fun m => ", \"" ++ facetValue record.Distribution m ++ "\""))
          ++ "\x7d")) := by
  unfold tagQueryBuilder
  rw [tagLoop_known record ms hk]
  simp only [writeTags_eq, List.map_map, tagSelectClause_eq]
  congr 2
  unfold packageTags
  by_cases hsrc : record.Package.Source.Name = ""
  · simp only [hsrc, ne_eq, not_true_eq_false, if_false, if_true, openArray, closeArray, quote,
      comma, space, String.append_assoc, String.empty_append]
    rfl
  · simp only [hsrc, ne_eq, not_false_eq_true, if_false, if_true, openArray, closeArray, quote,
      comma, space, String.append_assoc, String.empty_append]
    rfl

/-! ## Lemmas on `get` -/

theorem lookup_assign_same (r : Results) (k : Int) (v : List Vulnerability) :
    (r.assign k v).lookup k = some v := by
  induction r with
  | nil => simp [Results.assign, Results.lookup]
  | cons e rest ih =>
    obtain ⟨k', v'⟩ := e
    by_cases h : k' = k
    · simp [Results.assign, Results.lookup, h]
    · simp [Results.assign, Results.lookup, h, ih]

theorem lookup_assign_other (r : Results) (k k' : Int) (v : List Vulnerability) (h : k' ≠ k) :
    (r.assign k v).lookup k' = r.lookup k' := by
  induction r with
  | nil => simp [Results.assign, Results.lookup, Ne.symm h]
  | cons e rest ih =>
    obtain ⟨k0, v0⟩ := e
    by_cases h0 : k0 = k
    · subst h0
      simp [Results.assign, Results.lookup, Ne.symm h]
    · by_cases h1 : k0 = k'
      · subst h1
        simp [Results.assign, Results.lookup, h0]
      · simp [Results.assign, Results.lookup, h0, h1, ih]

theorem extend_extend (o : Option (List Vulnerability)) (a b : List Vulnerability) :
    extend (extend o a) b = extend o (a ++ b) := by
  unfold extend
  by_cases hb : b = []
  · subst hb; simp
  · by_cases ha : a = []
    · subst ha; simp [hb]
    · simp [ha, hb]

theorem extend_nil (o : Option (List Vulnerability)) : extend o [] = o := by
  simp [extend]

/-- Scanning rows that all scan appends their vulnerabilities under the id of
the record and leaves the other entries alone. -/
theorem scanRows_ok (record : IndexRecord) (rows : List Row)
    (hrows : ∀ row ∈ rows, ∃ v, row.vulnerability = .ok v) (results : Results) :
    ∃ results', scanRows record rows results = .ok results' ∧
      ∀ k, results'.lookup k
        = if record.Package.ID = k then extend (results.lookup k) (rows.filterMap Row.decoded)
          else results.lookup k := by
  induction rows generalizing results with
  | nil =>
    refine ⟨results, rfl, ?_⟩
    intro k
    simp [extend]
  | cons row rows ih =>
    obtain ⟨v, hv⟩ := hrows row (List.mem_cons_self _ _)
    have hrest : ∀ r ∈ rows, ∃ v, r.vulnerability = .ok v :=
      fun r hr => hrows r (List.mem_cons_of_mem _ hr)
    have hdec : Row.decoded row = some { v with ID := row.id.getD 0 } := by
      simp [Row.decoded, hv]
    cases hl : results.lookup record.Package.ID with
    | none =>
      obtain ⟨results', hres, hlook⟩ :=
        ih hrest (results.assign record.Package.ID [{ v with ID := row.id.getD 0 }])
      refine ⟨results', ?_, ?_⟩
      · simp only [scanRows, hv, hl]
        exact hres
      · intro k
        rw [hlook k]
        by_cases hk : record.Package.ID = k
        · subst hk
          simp only [if_true, lookup_assign_same, hl, List.filterMap_cons, hdec]
          have : extend (some [{ v with ID := row.id.getD 0 }]) (List.filterMap Row.decoded rows)
              = extend (extend none [{ v with ID := row.id.getD 0 }])
                  (List.filterMap Row.decoded rows) := by
            simp [extend]
          rw [this, extend_extend]
          rfl
        · simp only [hk, if_false]
          exact lookup_assign_other _ _ _ _ (Ne.symm hk)
    | some vvulns =>
      obtain ⟨results', hres, hlook⟩ :=
        ih hrest (results.assign record.Package.ID
          (vvulns ++ [{ v with ID := row.id.getD 0 }]))
      refine ⟨results', ?_, ?_⟩
      · simp only [scanRows, hv, hl]
        exact hres
      · intro k
        rw [hlook k]
        by_cases hk : record.Package.ID = k
        · subst hk
          simp only [if_true, lookup_assign_same, hl, List.filterMap_cons, hdec]
          have : extend (some (vvulns ++ [{ v with ID := row.id.getD 0 }]))
                (List.filterMap Row.decoded rows)
              = extend (extend (some vvulns) [{ v with ID := row.id.getD 0 }])
                  (List.filterMap Row.decoded rows) := by
            simp [extend]
          rw [this, extend_extend]
          rfl
        · simp only [hk, if_false]
          exact lookup_assign_other _ _ _ _ (Ne.symm hk)

/-- The query queued for a record (empty when it cannot be built). -/
theorem gather_ok (pool : Pool) (opts : GetOpts) (records : List IndexRecord)
    (hq : ∀ r ∈ records, ∃ q, jsonQueryBuilder r opts.Matchers = .ok q)
    (ha : ∀ r ∈ records, answered pool opts r) (res : BatchResults) (results : Results) :
    ∃ results',
      gather records
          (records.map (fun r =>
            match jsonQueryBuilder r opts.Matchers with
            | .ok q => pool.Query q
            | .error e => .error e) ++ res) results = .ok results' ∧
      ∀ k, results'.lookup k
        = extend (results.lookup k)
            ((records.filter (fun r => decide (r.Package.ID = k))).flatMap (rowsOf pool opts)) := by
  induction records generalizing results with
  | nil =>
    refine ⟨results, rfl, ?_⟩
    intro k
    simp [extend]
  | cons r rs ih =>
    obtain ⟨q, hqr⟩ := hq r (List.mem_cons_self _ _)
    obtain ⟨rows, hrows, hscan⟩ := ha r (List.mem_cons_self _ _) q hqr
    obtain ⟨results1, h1, hl1⟩ := scanRows_ok r rows hscan results
    obtain ⟨results2, h2, hl2⟩ :=
      ih (fun x hx => hq x (List.mem_cons_of_mem _ hx))
        (fun x hx => ha x (List.mem_cons_of_mem _ hx)) results1
    refine ⟨results2, ?_, ?_⟩
    · simp only [List.map_cons, List.cons_append, gather, BatchResults.next, hqr, hrows, h1]
      exact h2
    · intro k
      rw [hl2 k, hl1 k]
      have hrow : rowsOf pool opts r = rows.filterMap Row.decoded := by
        simp [rowsOf, hqr, hrows]
      by_cases hk : r.Package.ID = k
      · simp only [hk, if_true, List.filter_cons, decide_True, List.flatMap_cons, hrow]
        rw [extend_extend]
      · simp only [hk, if_false, List.filter_cons, decide_False]
        rfl

theorem queueQueries_ok (matchers : List MatchExp) (records : List IndexRecord)
    (hname : ∀ r ∈ records, r.Package.Name ≠ "")
    (hq : ∀ r ∈ records, ∃ q, jsonQueryBuilder r matchers = .ok q) (batch : List String) :
    ∃ queued, queueQueries matchers records batch = .ok (batch ++ queued) ∧
      queued.length = records.length ∧
      ∀ pool : Pool, queued.map pool.Query
        = records.map (fun r =>
            match jsonQueryBuilder r matchers with
            | .ok q => pool.Query q
            | .error e => .error e) := by
  induction records generalizing batch with
  | nil => exact ⟨[], by simp [queueQueries], rfl, fun _ => rfl⟩
  | cons r rs ih =>
    obtain ⟨q, hqr⟩ := hq r (List.mem_cons_self _ _)
    have hn := hname r (List.mem_cons_self _ _)
    obtain ⟨queued, h1, h2, h3⟩ :=
      ih (fun x hx => hname x (List.mem_cons_of_mem _ hx))
        (fun x hx => hq x (List.mem_cons_of_mem _ hx)) (batch ++ [q])
    refine ⟨q :: queued, ?_, by simp [h2], ?_⟩
    · simp only [queueQueries, hn, if_false, hqr, h1]
      simp
    · intro pool
      simp [hqr, h3 pool]

/-- The number of queries `get` queues: one per record with a package name. -/
theorem queueQueries_length (matchers : List MatchExp) (records : List IndexRecord)
    (batch queued : List String) (h : queueQueries matchers records batch = .ok queued) :
    queued.length
      = batch.length + (records.filter (fun r => decide (r.Package.Name ≠ ""))).length := by
  induction records generalizing batch with
  | nil =>
    simp only [queueQueries, Except.ok.injEq] at h
    simp [h]
  | cons r rs ih =>
    by_cases hn : r.Package.Name = ""
    · simp only [queueQueries, hn, if_true] at h
      rw [ih batch h]
      simp [hn]
    · simp only [queueQueries, hn, if_false] at h
      cases hb : jsonQueryBuilder r matchers with
      | error e => simp [hb] at h
      | ok q =>
        simp only [hb] at h
        rw [ih (batch ++ [q]) h]
        simp [hn]
        omega

/-- Reading one result per record from fewer results than records fails. -/
theorem gather_short (records : List IndexRecord) (res : BatchResults) (results : Results)
    (h : res.length < records.length) : ∃ err, gather records res results = .error err := by
  induction records generalizing res results with
  | nil => simp at h
  | cons r rs ih =>
    cases res with
    | nil => exact ⟨_, rfl⟩
    | cons a rest =>
      cases a with
      | error e => exact ⟨e, rfl⟩
      | ok rows =>
        cases hs : scanRows r rows results with
        | error e => exact ⟨e, by simp [gather, BatchResults.next, hs]⟩
        | ok results' =>
          have hlen : rest.length < rs.length := by simpa using h
          obtain ⟨e, he⟩ := ih rest results' hlen
          exact ⟨e, by simp [gather, BatchResults.next, hs, he]⟩

theorem length_filter_lt {α : Type} (p : α → Bool) (l : List α)
    (h : ∃ x ∈ l, p x = false) : (l.filter p).length < l.length := by
  induction l with
  | nil => simp at h
  | cons a as ih =>
    have hle := List.length_filter_le p as
    by_cases ha : p a = true
    · obtain ⟨x, hx, hpx⟩ := h
      rcases List.mem_cons.1 hx with rfl | hmem
      · simp [ha] at hpx
      · have := ih ⟨x, hmem, hpx⟩
        simp only [List.filter_cons, ha, if_true, List.length_cons]
        omega
    · simp only [List.filter_cons, ha, List.length_cons]
      simp only [Bool.false_eq_true, if_false]
      omega

/-- Whenever a record has an empty package name, `get` returns an error. -/
theorem get_error_of_empty_name (pool : Pool) (records : List IndexRecord) (opts : GetOpts)
    (h : ∃ r ∈ records, r.Package.Name = "") :
    ∃ err, (get pool records opts).result = .error err := by
  unfold get
  cases hb : pool.Begin with
  | some e => exact ⟨e, rfl⟩
  | none =>
    cases hq : queueQueries opts.Matchers records [] with
    | error e => exact ⟨e, rfl⟩
    | ok batch =>
      have hlen := queueQueries_length _ _ _ _ hq
      obtain ⟨r, hr, hname⟩ := h
      have hlt : (records.filter (fun r => decide (r.Package.Name ≠ ""))).length
          < records.length :=
        length_filter_lt _ records ⟨r, hr, by simp [hname]⟩
      have hshort : (SendBatch pool batch).length < records.length := by
        simp only [SendBatch, List.length_map, hlen, List.length_nil, Nat.zero_add]
        exact hlt
      obtain ⟨e, he⟩ := gather_short records (SendBatch pool batch) [] hshort
      exact ⟨e, by simp only [he]⟩

theorem jsonSwitch_unknown (record : IndexRecord) (m : MatchExp) (h : m.known = false) :
    jsonSwitch record m = none := by
  cases m <;> first | rfl | simp [MatchExp.known] at h

/-- The matcher loop stops at the first facet that is not known. -/
theorem matcherLoop_unknown (switch : MatchExp → Option String)
    (hnone : ∀ m, m.known = false → switch m = none)
    (hsome : ∀ m, m.known = true → ∃ q, switch m = some q) :
    ∀ (ms seen : List MatchExp) (acc : List String), (∀ x ∈ seen, x.known = true) →
      (∃ m ∈ ms, m.known = false) →
      ∃ m ∈ ms, m.known = false ∧ matcherLoop switch ms seen acc = .error (unknownMatcher m) := by
  intro ms
  induction ms with
  | nil => intro seen acc _ h; simp at h
  | cons m ms ih =>
    intro seen acc hseen hex
    cases hm : m.known with
    | false =>
      have hnot : m ∉ seen := fun hmem => by
        have := hseen m hmem
        simp [hm] at this
      exact ⟨m, List.mem_cons_self _ _, hm, by simp [matcherLoop, hnot, hnone m hm]⟩
    | true =>
      have hex' : ∃ x ∈ ms, x.known = false := by
        obtain ⟨x, hx, hxk⟩ := hex
        rcases List.mem_cons.1 hx with rfl | hmem
        · simp [hm] at hxk
        · exact ⟨x, hmem, hxk⟩
      by_cases hin : m ∈ seen
      · obtain ⟨x, hx, hxk, hloop⟩ := ih seen acc hseen hex'
        exact ⟨x, List.mem_cons_of_mem _ hx, hxk, by simp [matcherLoop, hin, hloop]⟩
      · obtain ⟨q, hq⟩ := hsome m hm
        have hseen' : ∀ x ∈ m :: seen, x.known = true := by
          intro x hx
          rcases List.mem_cons.1 hx with rfl | hmem
          · exact hm
          · exact hseen x hmem
        obtain ⟨x, hx, hxk, hloop⟩ := ih (m :: seen) (acc ++ [q]) hseen' hex'
        exact ⟨x, List.mem_cons_of_mem _ hx, hxk, by simp [matcherLoop, hin, hq, hloop]⟩

theorem jsonQueryBuilder_unknown (record : IndexRecord) (ms : List MatchExp)
    (h : ∃ m ∈ ms, m.known = false) :
    ∃ m ∈ ms, m.known = false ∧ jsonQueryBuilder record ms = .error (unknownMatcher m) := by
  obtain ⟨m, hm, hk, hloop⟩ :=
    matcherLoop_unknown (jsonSwitch record) (jsonSwitch_unknown record)
      (fun m hm => ⟨_, jsonSwitch_known record m hm⟩) ms [] [] (by simp) h
  exact ⟨m, hm, hk, by simp [jsonQueryBuilder, hloop]⟩

theorem queueQueries_unknown (ms : List MatchExp) (records : List IndexRecord)
    (hrec : ∃ r ∈ records, r.Package.Name ≠ "") (h : ∃ m ∈ ms, m.known = false)
    (batch : List String) :
    ∃ m ∈ ms, m.known = false ∧
      queueQueries ms records batch
        = .error (.wrap ("error building json query string: " ++ (unknownMatcher m).text)
            (unknownMatcher m)) := by
  induction records generalizing batch with
  | nil => simp at hrec
  | cons r rs ih =>
    by_cases hn : r.Package.Name = ""
    · have hrec' : ∃ x ∈ rs, x.Package.Name ≠ "" := by
        obtain ⟨x, hx, hxn⟩ := hrec
        rcases List.mem_cons.1 hx with rfl | hmem
        · exact absurd hn hxn
        · exact ⟨x, hmem, hxn⟩
      obtain ⟨m, hm, hk, hq⟩ := ih hrec' batch
      exact ⟨m, hm, hk, by simp [queueQueries, hn, hq]⟩
    · obtain ⟨m, hm, hk, hq⟩ := jsonQueryBuilder_unknown r ms h
      exact ⟨m, hm, hk, by simp [queueQueries, hn, hq]⟩

/-- The example database answers every query with rows that scan. -/
theorem examplePool_answered (opts : GetOpts) (record : IndexRecord) :
    answered examplePool opts record := by
  intro query _
  simp only [examplePool]
  split_ifs
  · exact ⟨_, rfl, by simp⟩
  · exact ⟨_, rfl, by simp⟩
  · exact ⟨_, rfl, by simp⟩

/-! ## Lemmas on `putVulnerabilities` -/

theorem uuid_string_ne_empty (u : UUID) : u.String ≠ "" := by
  intro h
  have hd := congrArg String.data h
  simp [UUID.String] at hd

theorem sendBatch_ok (env : PutEnv) (pending : List (Nat × String × Vulnerability × String))
    (tx tx' : Database) (h : sendBatch env pending tx = .ok tx') :
    tx'.vuln = tx.vuln ++ pending.map insertedRow ∧ tx'.updatecursor = tx.updatecursor ∧
      ∀ p ∈ pending, env.insert p.1 = none := by
  induction pending generalizing tx with
  | nil =>
    simp only [sendBatch, Except.ok.injEq] at h
    subst h
    simp
  | cons p rest ih =>
    obtain ⟨k, args⟩ := p
    cases hk : env.insert k with
    | some e => simp [sendBatch, hk] at h
    | none =>
      simp only [sendBatch, hk] at h
      obtain ⟨h1, h2, h3⟩ := ih (execInsert tx args) h
      refine ⟨?_, ?_, ?_⟩
      · rw [h1]
        simp [execInsert, insertedRow]
      · rw [h2]
        rfl
      · intro q hq
        rcases List.mem_cons.1 hq with rfl | hmem
        · exact hk
        · exact h3 q hmem

theorem queue_ok (env : PutEnv) (cap call : Nat) (b b' : Insert) (tx tx' : Database)
    (args : String × Vulnerability × String) (hinv : batchInv env b call)
    (h : b.Queue env cap call tx args = .ok (b', tx')) :
    tx'.vuln ++ b'.pending.map insertedRow
        = tx.vuln ++ b.pending.map insertedRow ++ [insertedRow (call, args)] ∧
      tx'.updatecursor = tx.updatecursor ∧ batchInv env b' (call + 1) := by
  unfold Insert.Queue at h
  simp only at h
  split_ifs at h with hflush
  · cases hs : sendBatch env (b.pending ++ [(call, args)]) tx with
    | error e => simp [hs] at h
    | ok tx1 =>
      simp only [hs, Except.ok.injEq, Prod.mk.injEq] at h
      obtain ⟨hb, htx⟩ := h
      subst hb; subst htx
      obtain ⟨h1, h2, h3⟩ := sendBatch_ok env _ tx tx1 hs
      refine ⟨by simp [h1], h2, ?_⟩
      intro i hi
      left
      rcases Nat.lt_succ_iff_lt_or_eq.1 hi with hlt | heq
      · rcases hinv i hlt with hnone | ⟨p, hp, hpi⟩
        · exact hnone
        · rw [← hpi]
          exact h3 p (List.mem_append_left _ hp)
      · subst heq
        exact h3 (i, args) (by simp)
  · simp only [Except.ok.injEq, Prod.mk.injEq] at h
    obtain ⟨hb, htx⟩ := h
    subst hb; subst htx
    refine ⟨by simp, rfl, ?_⟩
    intro i hi
    rcases Nat.lt_succ_iff_lt_or_eq.1 hi with hlt | heq
    · rcases hinv i hlt with hnone | ⟨p, hp, hpi⟩
      · exact Or.inl hnone
      · exact Or.inr ⟨p, List.mem_append_left _ hp, hpi⟩
    · subst heq
      exact Or.inr ⟨(i, args), by simp, rfl⟩

theorem queueVulns_ok (env : PutEnv) (updater newTombstone : String)
    (vulns : List Vulnerability) (call : Nat) (b b' : Insert) (tx tx' : Database)
    (hinv : batchInv env b call)
    (h : queueVulns env updater newTombstone vulns call b tx = .ok (b', tx')) :
    tx'.vuln ++ b'.pending.map insertedRow
        = tx.vuln ++ b.pending.map insertedRow
          ++ vulns.map (fun v => VulnRow.mk updater (fillEnvelopes v) newTombstone) ∧
      tx'.updatecursor = tx.updatecursor ∧ batchInv env b' (call + vulns.length) := by
  induction vulns generalizing call b tx with
  | nil =>
    simp only [queueVulns, Except.ok.injEq, Prod.mk.injEq] at h
    obtain ⟨hb, htx⟩ := h
    subst hb; subst htx
    exact ⟨by simp, rfl, hinv⟩
  | cons v vs ih =>
    cases hq : b.Queue env 2000 call tx (updater, fillEnvelopes v, newTombstone) with
    | error e => simp [queueVulns, hq] at h
    | ok r =>
      obtain ⟨b1, tx1⟩ := r
      simp only [queueVulns, hq] at h
      obtain ⟨h1, h2, h3⟩ := queue_ok env 2000 call b b1 tx tx1 _ hinv hq
      obtain ⟨g1, g2, g3⟩ := ih (call + 1) b1 tx1 h3 h
      refine ⟨?_, ?_, ?_⟩
      · rw [g1, h1]
        simp [insertedRow]
      · rw [g2, h2]
      · have : call + (v :: vs).length = call + 1 + vs.length := by
          simp only [List.length_cons]; omega
        rw [this]
        exact g3

theorem execUpsert_vuln (tx : Database) (updater hash tombstone : String) :
    (execUpsert tx updater hash tombstone).vuln = tx.vuln := by
  unfold execUpsert
  split_ifs <;> rfl

theorem execUpsert_congr (a b : Database) (updater hash tombstone : String)
    (h : a.updatecursor = b.updatecursor) :
    (execUpsert a updater hash tombstone).updatecursor
      = (execUpsert b updater hash tombstone).updatecursor := by
  unfold execUpsert
  rw [h]
  split_ifs <;> rfl

/-- What a successful run of the statements in the transaction leaves, and that
none of its steps failed. -/
theorem putInTx_ok (env : PutEnv) (tx tx' : Database)
    (updater hash oldTombstone newTombstone : String) (vulns : List Vulnerability)
    (h : putInTx env tx updater hash oldTombstone newTombstone vulns = .ok tx') :
    tx'.vuln
        = (if oldTombstone ≠ "" then
            (tx.vuln ++ vulns.map (fun v => VulnRow.mk updater (fillEnvelopes v) newTombstone)).filter
              (fun r => decide (r.tombstone ≠ oldTombstone))
          else tx.vuln ++ vulns.map (fun v => VulnRow.mk updater (fillEnvelopes v) newTombstone)) ∧
      tx'.updatecursor = (execUpsert tx updater hash newTombstone).updatecursor ∧
      (∀ i < vulns.length, env.insert i = none) ∧
      (oldTombstone ≠ "" → env.delete = none) ∧ env.upsert = none := by
  unfold putInTx at h
  cases hq : queueVulns env updater newTombstone vulns 0 ⟨[]⟩ tx with
  | error e => simp [hq] at h
  | ok r =>
    obtain ⟨b1, tx1⟩ := r
    simp only [hq] at h
    have hinv0 : batchInv env ⟨[]⟩ 0 := fun i hi => absurd hi (Nat.not_lt_zero i)
    obtain ⟨q1, q2, q3⟩ := queueVulns_ok env updater newTombstone vulns 0 ⟨[]⟩ b1 tx tx1 hinv0 hq
    cases hd : b1.Done env tx1 with
    | error e => simp [hd] at h
    | ok tx2 =>
      simp only [hd] at h
      obtain ⟨d1, d2, d3⟩ := sendBatch_ok env b1.pending tx1 tx2 hd
      have hrows : tx2.vuln
          = tx.vuln ++ vulns.map (fun v => VulnRow.mk updater (fillEnvelopes v) newTombstone) := by
        rw [d1, q1]
        simp
      have hins : ∀ i < vulns.length, env.insert i = none := by
        intro i hi
        rcases q3 i (by simpa using hi) with hnone | ⟨p, hp, hpi⟩
        · exact hnone
        · rw [← hpi]
          exact d3 p hp
      by_cases hold : oldTombstone = ""
      · rw [if_neg (not_not.2 hold)] at h
        rw [if_neg (not_not.2 hold)]
        cases hu : env.upsert with
        | some e => simp [hu] at h
        | none =>
          simp only [hu, Except.ok.injEq] at h
          subst h
          refine ⟨?_, ?_, hins, fun hne => absurd hold hne, rfl⟩
          · rw [execUpsert_vuln, hrows]
          · exact execUpsert_congr _ _ _ _ _ (d2.trans q2)
      · rw [if_pos hold] at h
        rw [if_pos hold]
        cases hdel : env.delete with
        | some e => simp [hdel] at h
        | none =>
          simp only [hdel] at h
          cases hu : env.upsert with
          | some e => simp [hu] at h
          | none =>
            simp only [hu, Except.ok.injEq] at h
            subst h
            refine ⟨?_, ?_, hins, fun _ => rfl, rfl⟩
            · rw [execUpsert_vuln]
              simp only [execDelete, hrows]
            · exact execUpsert_congr _ _ _ _ _ (d2.trans q2)

/-- A call that returns nil: none of its steps failed, and the tables are those
the transaction built. -/
theorem putVulnerabilities_ok (env : PutEnv) (db : Database) (updater hash : String)
    (vulns : List Vulnerability) (h : (putVulnerabilities env db updater hash vulns).1 = none) :
    putInTx env db updater hash (oldTombstoneOf db updater) env.uuid.String vulns
        = .ok (putVulnerabilities env db updater hash vulns).2 ∧
      env.selectTombstone = none ∧ env.Begin = none ∧ env.Commit = none := by
  unfold putVulnerabilities at h ⊢
  cases hs : env.selectTombstone with
  | some e => simp [hs] at h
  | none =>
    cases hb : env.Begin with
    | some e => simp [hs, hb] at h
    | none =>
      cases ht : putInTx env db updater hash (oldTombstoneOf db updater) env.uuid.String vulns with
      | error e => simp [hs, hb, ht] at h
      | ok tx =>
        cases hc : env.Commit with
        | some e => simp [hs, hb, ht, hc] at h
        | none => simp [hs, hb, ht, hc]

/-- A call that returns an error leaves the database as it was. -/
theorem putVulnerabilities_error (env : PutEnv) (db : Database) (updater hash : String)
    (vulns : List Vulnerability) (h : (putVulnerabilities env db updater hash vulns).1 ≠ none) :
    (putVulnerabilities env db updater hash vulns).2 = db := by
  unfold putVulnerabilities at h ⊢
  cases hs : env.selectTombstone with
  | some e => simp [hs]
  | none =>
    cases hb : env.Begin with
    | some e => simp [hs, hb]
    | none =>
      cases ht : putInTx env db updater hash (oldTombstoneOf db updater) env.uuid.String vulns with
      | error e => simp [hs, hb, ht]
      | ok tx =>
        cases hc : env.Commit with
        | some e => simp [hs, hb, ht, hc]
        | none => simp [hs, hb, ht, hc] at h

theorem upsert_keys (l : List CursorRow) (updater hash tombstone : String) :
    (l.map (fun r => if r.updater = updater
        then { r with hash := hash, tombstone := tombstone } else r)).map (fun r => r.updater)
      = l.map (fun r => r.updater) := by
  induction l with
  | nil => rfl
  | cons r rs ih =>
    simp only [List.map_cons, ih]
    congr 1
    split_ifs <;> rfl

theorem upsert_filter_absent (l : List CursorRow) (updater hash tombstone : String)
    (h : ∀ r ∈ l, r.updater ≠ updater) :
    (l.map (fun r => if r.updater = updater
        then { r with hash := hash, tombstone := tombstone } else r)).filter
        (fun r => decide (r.updater = updater)) = [] := by
  induction l with
  | nil => rfl
  | cons r rs ih =>
    have hr := h r (List.mem_cons_self _ _)
    simp only [List.map_cons, hr, if_false, List.filter_cons, decide_False, Bool.false_eq_true]
    exact ih (fun x hx => h x (List.mem_cons_of_mem _ hx))

theorem upsert_filter_present (l : List CursorRow) (updater hash tombstone : String)
    (hnd : (l.map (fun r => r.updater)).Nodup) (h : ∃ r ∈ l, r.updater = updater) :
    (l.map (fun r => if r.updater = updater
        then { r with hash := hash, tombstone := tombstone } else r)).filter
        (fun r => decide (r.updater = updater)) = [⟨updater, hash, tombstone⟩] := by
  induction l with
  | nil => simp at h
  | cons r rs ih =>
    simp only [List.map_cons, List.nodup_cons, List.mem_map, not_exists, not_and] at hnd
    by_cases hr : r.updater = updater
    · have hrest : ∀ x ∈ rs, x.updater ≠ updater := fun x hx hxu =>
        hnd.1 x hx (hxu.trans hr.symm)
      simp only [List.map_cons, hr, if_true, List.filter_cons, decide_True,
        upsert_filter_absent rs updater hash tombstone hrest]
    · have hex : ∃ x ∈ rs, x.updater = updater := by
        obtain ⟨x, hx, hxu⟩ := h
        rcases List.mem_cons.1 hx with rfl | hmem
        · exact absurd hxu hr
        · exact ⟨x, hmem, hxu⟩
      simp only [List.map_cons, hr, if_false, List.filter_cons, decide_False,
        Bool.false_eq_true]
      exact ih hnd.2 hex

/-- After the upsert the updater has exactly one cursor row, the new one, and
the primary key still holds. -/
theorem execUpsert_cursor (tx : Database) (updater hash tombstone : String)
    (hwf : tx.wellFormed) :
    (execUpsert tx updater hash tombstone).updatecursor.filter
        (fun r => decide (r.updater = updater)) = [⟨updater, hash, tombstone⟩] ∧
      ((execUpsert tx updater hash tombstone).updatecursor.map (fun r => r.updater)).Nodup := by
  unfold Database.wellFormed at hwf
  unfold execUpsert
  by_cases hany : tx.updatecursor.any (fun r => decide (r.updater = updater)) = true
  · rw [if_pos hany]
    have hex : ∃ r ∈ tx.updatecursor, r.updater = updater := by
      simpa using hany
    exact ⟨upsert_filter_present _ _ _ _ hwf hex, by simpa only [upsert_keys] using hwf⟩
  · rw [if_neg hany]
    have hall : ∀ r ∈ tx.updatecursor, r.updater ≠ updater := by
      simpa using hany
    refine ⟨?_, ?_⟩
    · simp only [List.filter_append, List.filter_cons, decide_True, if_true, List.filter_nil]
      rw [List.filter_eq_nil_iff.2 (fun r hr => by simpa using hall r hr)]
      rfl
    · simp only [List.map_append, List.map_cons, List.map_nil]
      rw [List.nodup_append]
      refine ⟨hwf, by simp, ?_⟩
      intro a ha hb
      simp only [List.mem_singleton] at hb
      subst hb
      obtain ⟨r, hr, hru⟩ := List.mem_map.1 ha
      exact hall r hr hru

theorem upsert_find_present (l : List CursorRow) (updater hash tombstone : String)
    (hex : ∃ r ∈ l, r.updater = updater) :
    (l.map (fun r => if r.updater = updater
        then { r with hash := hash, tombstone := tombstone } else r)).find?
        (fun r => decide (r.updater = updater)) = some ⟨updater, hash, tombstone⟩ := by
  induction l with
  | nil => simp at hex
  | cons r rs ih =>
    by_cases hr : r.updater = updater
    · simp [List.find?, hr]
    · have hex' : ∃ x ∈ rs, x.updater = updater := by
        obtain ⟨x, hx, hxu⟩ := hex
        rcases List.mem_cons.1 hx with rfl | hmem
        · exact absurd hxu hr
        · exact ⟨x, hmem, hxu⟩
      simp only [List.map_cons, hr, if_false, List.find?, decide_False]
      exact ih hex'

/-- After the upsert, the tombstone read for the updater is the new one. -/
theorem oldTombstoneOf_upsert (tx db' : Database) (updater hash tombstone : String)
    (h : db'.updatecursor = (execUpsert tx updater hash tombstone).updatecursor) :
    oldTombstoneOf db' updater = tombstone := by
  unfold oldTombstoneOf
  rw [h]
  unfold execUpsert
  by_cases hany : tx.updatecursor.any (fun r => decide (r.updater = updater)) = true
  · rw [if_pos hany]
    have hex : ∃ r ∈ tx.updatecursor, r.updater = updater := by
      simpa using hany
    simp only [upsert_find_present _ updater hash tombstone hex]
  · rw [if_neg hany]
    have hall : ∀ r ∈ tx.updatecursor, r.updater ≠ updater := by
      simpa using hany
    have hfind : List.find? (fun r => decide (r.updater = updater)) tx.updatecursor = none := by
      rw [List.find?_eq_none]
      intro r hr
      simpa using hall r hr
    simp [List.find?_append, hfind]

/-! ## Lemmas on the manager -/

/-- The filter of `NewManager` keeps the factories whose name is not enabled. -/
theorem filterEnabled_eq (factories : List (String × UpdaterSetFactory))
    (enabled : List String) :
    filterEnabled factories enabled
      = factories.filter (fun entry => decide (entry.1 ∉ enabled)) := by
  induction enabled generalizing factories with
  | nil => simp [filterEnabled]
  | cons e rest ih =>
    rw [filterEnabled, ih, List.filter_filter]
    apply List.filter_congr
    intro x _
    by_cases h1 : x.1 = e <;> by_cases h2 : x.1 ∈ rest <;> simp [h1, h2]

theorem foldl_text_append (l : List Error) (init : String) :
    ∃ rest, l.foldl (fun b err => b ++ err.text ++ "\n") init = init ++ rest := by
  induction l generalizing init with
  | nil => exact ⟨"", by simp⟩
  | cons e es ih =>
    obtain ⟨rest, hrest⟩ := ih (init ++ e.text ++ "\n")
    refine ⟨e.text ++ "\n" ++ rest, ?_⟩
    rw [List.foldl_cons, hrest]
    simp only [String.append_assoc]

theorem updatingErrors_text (errs : List Error) :
    ∃ rest, (updatingErrors errs).text = "updating errors:\n" ++ rest := by
  obtain ⟨rest, hrest⟩ := foldl_text_append errs ("" ++ "updating errors:\n")
  exact ⟨rest, hrest⟩

/-- The errors sent on `errChan` are as many as the events that report one. -/
def RunState.balanced {σ κ : Type} (st : RunState σ κ) : Prop :=
  st.errChan.length = (st.log.filter RunEvent.isError).length

theorem updateTask_balanced {σ κ : Type} (m : Manager σ κ) (st : RunState σ κ) (j : Int)
    (u : Updater) (h : st.balanced) : (updateTask m st j u).balanced := by
  unfold RunState.balanced at h ⊢
  unfold updateTask
  rcases hl : m.lock.TryLock st.lock u.Name with ⟨r, lock⟩
  cases r with
  | error err => simp [List.filter_append, RunEvent.isError, h]
  | ok acquired =>
    cases acquired with
    | false => simp [List.filter_append, RunEvent.isError, h]
    | true =>
      cases hd : (driveUpdater m.store st.store u).result with
      | none => simp [hd, List.filter_append, RunEvent.isError, h]
      | some err => simp [hd, List.filter_append, RunEvent.isError, h]

theorem runChunk_balanced {σ κ : Type} (m : Manager σ κ) (updaters : List Updater)
    (i stop : Int) (st : RunState σ κ) (h : st.balanced) :
    (runChunk m updaters i stop st).balanced := by
  unfold runChunk
  generalize List.range (stop - i).toNat = ds
  induction ds generalizing st with
  | nil => exact h
  | cons d ds ih =>
    rw [List.foldl_cons]
    apply ih
    cases updaterAt updaters (i + (d : Int)) with
    | none => exact h
    | some u => exact updateTask_balanced m st _ u h

/-- With at least one worker the chunk loop ends within the fuel that covers the
updaters left, and keeps the balance of errors and events. -/
theorem chunkLoop_terminates {σ κ : Type} (m : Manager σ κ) (ctx : Context)
    (updaters : List Updater) (hw : 1 ≤ m.workers) :
    ∀ (fuel : Nat) (i : Int) (k : Nat) (st : RunState σ κ),
      ((updaters.length : Int) - i).toNat < fuel → st.balanced →
      ∃ st', chunkLoop m ctx updaters fuel i k st = some st' ∧ st'.balanced := by
  intro fuel
  induction fuel with
  | zero => intro i k st h; simp at h
  | succ fuel ih =>
    intro i k st hfuel hbal
    unfold chunkLoop
    by_cases hi : i < (updaters.length : Int)
    · rw [if_pos hi]
      cases hc : ctx.Err k with
      | some err =>
        refine ⟨_, rfl, ?_⟩
        unfold RunState.balanced at hbal ⊢
        simp [List.filter_append, RunEvent.isError, hbal]
      | none =>
        simp only
        apply ih
        · omega
        · apply runChunk_balanced
          unfold RunState.balanced at hbal ⊢
          simp [List.filter_append, RunEvent.isError, hbal]
    · rw [if_neg hi]
      exact ⟨st, rfl, hbal⟩

/-- With no worker and a context never cancelled, the chunk loop over a
non-empty list of updaters does not end, whatever the fuel. -/
theorem chunkLoop_no_worker {σ κ : Type} (m : Manager σ κ) (updaters : List Updater)
    (hw : m.workers = 0) (hne : updaters ≠ []) :
    ∀ (fuel k : Nat) (st : RunState σ κ), chunkLoop m background updaters fuel 0 k st = none := by
  intro fuel
  induction fuel with
  | zero => intro k st; rfl
  | succ fuel ih =>
    intro k st
    have hlen : (0 : Int) < (updaters.length : Int) := by
      cases updaters with
      | nil => exact absurd rfl hne
      | cons a as => simp only [List.length_cons]; omega
    unfold chunkLoop
    rw [if_pos hlen]
    simp only [background, hw, Int.add_zero]
    exact ih _ _

theorem updateTask_log {σ κ : Type} (m : Manager σ κ) (st : RunState σ κ) (j : Int)
    (u : Updater) : ∃ o, (updateTask m st j u).log = st.log ++ [.task j u.Name o] := by
  unfold updateTask
  rcases hl : m.lock.TryLock st.lock u.Name with ⟨r, lock⟩
  cases r with
  | error err => exact ⟨_, rfl⟩
  | ok acquired => cases acquired <;> exact ⟨_, rfl⟩

theorem chunksOf_tasks_append (evs L : List RunEvent)
    (h : ∀ e ∈ evs, e.index.isSome = true) :
    chunksOf (evs ++ L)
      = (evs.filterMap RunEvent.index ++ (chunksOf L).1, (chunksOf L).2) := by
  induction evs with
  | nil => simp
  | cons e es ih =>
    have hes := ih (fun e he => h e (List.mem_cons_of_mem _ he))
    cases e with
    | check err =>
      have := h (.check err) (List.mem_cons_self _ _)
      simp [RunEvent.index] at this
    | task j name o => simp [chunksOf, hes, RunEvent.index]

/-- The events of one chunk: one task per index from `i` up to `stop - 1`, each
for the updater at its index. -/
theorem runChunk_log {σ κ : Type} (m : Manager σ κ) (updaters : List Updater)
    (i stop : Int) (st : RunState σ κ) (hi : 0 ≤ i) (hstop : stop ≤ (updaters.length : Int)) :
    ∃ evs, (runChunk m updaters i stop st).log = st.log ++ evs ∧
      evs.filterMap RunEvent.index
        = (List.range (stop - i).toNat).map (fun (d : Nat) => i + (d : Int)) ∧
      (∀ e ∈ evs, e.index.isSome = true) ∧
      (∀ e ∈ evs, e.attempts updaters = true) := by
  unfold runChunk
  have hin : ∀ d ∈ List.range (stop - i).toNat,
      ∃ u, updaterAt updaters (i + (d : Int)) = some u := by
    intro d hd
    rw [List.mem_range] at hd
    have hlt : (i + (d : Int)).toNat < updaters.length := by omega
    refine ⟨updaters.get ⟨_, hlt⟩, ?_⟩
    unfold updaterAt
    rw [if_pos (by omega), List.get?_eq_get hlt]
  revert hin
  generalize List.range (stop - i).toNat = ds
  intro hin
  induction ds generalizing st with
  | nil => exact ⟨[], by simp⟩
  | cons d ds ih =>
    obtain ⟨u, hu⟩ := hin d (List.mem_cons_self _ _)
    obtain ⟨o, ho⟩ := updateTask_log m st (i + (d : Int)) u
    obtain ⟨evs, h1, h2, h3, h4⟩ :=
      ih (updateTask m st (i + (d : Int)) u) (fun e he => hin e (List.mem_cons_of_mem _ he))
    refine ⟨.task (i + (d : Int)) u.Name o :: evs, ?_, ?_, ?_, ?_⟩
    · rw [List.foldl_cons]
      simp only [hu]
      rw [h1, ho]
      simp
    · simp [RunEvent.index, h2]
    · intro e he
      rcases List.mem_cons.1 he with rfl | he
      · rfl
      · exact h3 e he
    · intro e he
      rcases List.mem_cons.1 he with rfl | he
      · simp [RunEvent.attempts, hu]
      · exact h4 e he

theorem ceil_chunks (n w k : Nat) (hw : 1 ≤ w) : k * w < n ↔ k < (n + w - 1) / w := by
  rw [Nat.lt_iff_add_one_le (m := k), Nat.le_div_iff_mul_le (by omega), Nat.add_mul,
    Nat.one_mul]
  omega

/-- With at least one worker and a context never cancelled, the chunk loop from
chunk `k` on ends and logs one check per chunk left, followed by the tasks of
that chunk's indices. -/
theorem chunkLoop_log {σ κ : Type} (m : Manager σ κ) (ctx : Context)
    (updaters : List Updater) (w : Nat) (hw : 1 ≤ w) (hmw : m.workers = (w : Int))
    (hctx : ∀ k, ctx.Err k = none) :
    ∀ (fuel k : Nat) (st : RunState σ κ), updaters.length - k * w < fuel →
      ∃ st' L, chunkLoop m ctx updaters fuel ((k * w : Nat) : Int) k st = some st' ∧
        st'.log = st.log ++ L ∧
        chunksOf L = ([], (List.range' k ((updaters.length + w - 1) / w - k)).map
          (chunkIndices updaters.length w)) ∧
        L.filterMap RunEvent.index
          = (List.range (updaters.length - k * w)).map
              (fun d => ((k * w + d : Nat) : Int)) ∧
        (∀ e ∈ L, e.attempts updaters = true) := by
  intro fuel
  induction fuel with
  | zero => intro k st h; omega
  | succ fuel ih =>
    intro k st hfuel
    unfold chunkLoop
    by_cases hi : k * w < updaters.length
    · have hi' : ((k * w : Nat) : Int) < (updaters.length : Int) := by exact_mod_cast hi
      have hk := (ceil_chunks updaters.length w k hw).1 hi
      have hnext : ((k * w : Nat) : Int) + m.workers = (((k + 1) * w : Nat) : Int) := by
        rw [hmw]; push_cast; ring
      have hsucc : (k + 1) * w = k * w + w := by ring
      rw [if_pos hi', hctx k]
      simp only [hnext]
      generalize hstop : (if ((((k + 1) * w : Nat) : Int)) ≥ (updaters.length : Int)
        then (updaters.length : Int) else (((k + 1) * w : Nat) : Int)) = stop
      have hstop' : stop = ((min ((k + 1) * w) updaters.length : Nat) : Int) := by
        rw [← hstop]; split <;> omega
      obtain ⟨evs, e1, e2, e3, e4⟩ := runChunk_log m updaters ((k * w : Nat) : Int) stop
        { st with log := st.log ++ [.check none] } (by omega) (by omega)
      obtain ⟨st', L, r1, r2, r3, r4, r5⟩ := ih (k + 1)
        (runChunk m updaters ((k * w : Nat) : Int) stop
          { st with log := st.log ++ [.check none] }) (by omega)
      have hidx : evs.filterMap RunEvent.index = chunkIndices updaters.length w k := by
        rw [e2, chunkIndices, hstop']
        have : (((min ((k + 1) * w) updaters.length : Nat) : Int) - ((k * w : Nat) : Int)).toNat
            = min ((k + 1) * w) updaters.length - k * w := by omega
        rw [this]
        apply List.map_congr_left
        intro d _
        push_cast
        rfl
      refine ⟨st', [.check none] ++ evs ++ L, r1, ?_, ?_, ?_, ?_⟩
      · rw [r2, e1]; simp
      · have hr : (updaters.length + w - 1) / w - k
            = ((updaters.length + w - 1) / w - (k + 1)) + 1 := by omega
        rw [hr, List.range'_succ, List.map_cons, List.append_assoc, List.singleton_append,
          chunksOf, chunksOf_tasks_append evs L e3, r3, hidx]
        simp
      · rw [List.filterMap_append, List.filterMap_append, r4, hidx]
        simp only [List.filterMap_cons, RunEvent.index, List.filterMap_nil, List.nil_append]
        unfold chunkIndices
        by_cases hlast : (k + 1) * w ≥ updaters.length
        · have h1 : min ((k + 1) * w) updaters.length - k * w = updaters.length - k * w := by
            omega
          have h2 : updaters.length - (k + 1) * w = 0 := by omega
          rw [h1, h2]; simp
        · have h1 : min ((k + 1) * w) updaters.length - k * w = w := by omega
          have h2 : updaters.length - k * w = w + (updaters.length - (k + 1) * w) := by omega
          rw [h1, h2, List.range_add, List.map_append, List.map_map]
          congr 1
          apply List.map_congr_left
          intro d _
          simp only [Function.comp]
          congr 1
          omega
      · intro e he
        simp only [List.mem_append, List.mem_singleton] at he
        rcases he with (rfl | he) | he
        · rfl
        · exact e4 e he
        · exact r5 e he
    · have hi' : ¬ ((k * w : Nat) : Int) < (updaters.length : Int) := by
        intro h; exact hi (by exact_mod_cast h)
      have hk : ¬ k < (updaters.length + w - 1) / w :=
        fun h => hi ((ceil_chunks updaters.length w k hw).2 h)
      rw [if_neg hi']
      refine ⟨st, [], rfl, by simp, ?_, ?_, by simp⟩
      · have : (updaters.length + w - 1) / w - k = 0 := by omega
        rw [this]; rfl
      · have : updaters.length - k * w = 0 := by omega
        rw [this]; rfl

/-- The body of a goroutine is one attempt on its updater. -/
theorem updateTask_attempt {σ κ : Type} (m : Manager σ κ) (st : RunState σ κ) (j : Int)
    (u : Updater) :
    (updateTask m st j u).store = (attempt m st.store st.lock u).1
    ∧ (updateTask m st j u).lock = (attempt m st.store st.lock u).2.1
    ∧ (updateTask m st j u).log
        = st.log ++ [.task j u.Name (attempt m st.store st.lock u).2.2] := by
  unfold updateTask attempt
  rcases hl : m.lock.TryLock st.lock u.Name with ⟨r, lock⟩
  cases r with
  | error err => exact ⟨rfl, rfl, rfl⟩
  | ok acquired => cases acquired <;> exact ⟨rfl, rfl, rfl⟩

theorem attemptAll_append {σ κ : Type} (m : Manager σ κ) (as bs : List Updater) :
    ∀ (j : Int) (s : σ) (l : κ),
      attemptAll m (as ++ bs) j s l
        = ((attemptAll m bs (j + (as.length : Int)) (attemptAll m as j s l).1
              (attemptAll m as j s l).2.1).1,
           (attemptAll m bs (j + (as.length : Int)) (attemptAll m as j s l).1
              (attemptAll m as j s l).2.1).2.1,
           (attemptAll m as j s l).2.2
             ++ (attemptAll m bs (j + (as.length : Int)) (attemptAll m as j s l).1
                  (attemptAll m as j s l).2.1).2.2) := by
  induction as with
  | nil => intro j s l; simp [attemptAll]
  | cons a as ih =>
    intro j s l
    have hj : j + 1 + (as.length : Int) = j + ((a :: as).length : Int) := by
      simp only [List.length_cons]; push_cast; ring
    rw [List.cons_append]
    simp only [attemptAll]
    rw [ih, hj]
    simp only [List.cons_append]

theorem runChunk_succ {σ κ : Type} (m : Manager σ κ) (updaters : List Updater)
    (a n : Nat) (st : RunState σ κ) (u : Updater)
    (hu : updaterAt updaters ((a : Int) + (n : Int)) = some u) :
    runChunk m updaters (a : Int) ((a : Int) + ((n + 1 : Nat) : Int)) st
      = updateTask m (runChunk m updaters (a : Int) ((a : Int) + (n : Int)) st)
          ((a : Int) + (n : Int)) u := by
  have h1 : ((a : Int) + ((n + 1 : Nat) : Int) - (a : Int)).toNat = n + 1 := by omega
  have h2 : ((a : Int) + (n : Int) - (a : Int)).toNat = n := by omega
  unfold runChunk
  rw [h1, h2, List.range_succ, List.foldl_append, List.foldl_cons, List.foldl_nil]
  simp only [hu]

/-- A chunk attempts the updaters of its indices, one after the other. -/
theorem runChunk_attempt {σ κ : Type} (m : Manager σ κ) (updaters : List Updater)
    (a : Nat) (st : RunState σ κ) :
    ∀ n : Nat, a + n ≤ updaters.length →
      (runChunk m updaters (a : Int) ((a : Int) + (n : Int)) st).store
          = (attemptAll m ((updaters.drop a).take n) (a : Int) st.store st.lock).1
      ∧ (runChunk m updaters (a : Int) ((a : Int) + (n : Int)) st).lock
          = (attemptAll m ((updaters.drop a).take n) (a : Int) st.store st.lock).2.1
      ∧ (runChunk m updaters (a : Int) ((a : Int) + (n : Int)) st).log
          = st.log ++ (attemptAll m ((updaters.drop a).take n) (a : Int) st.store st.lock).2.2 := by
  intro n
  induction n with
  | zero =>
    intro _
    simp [runChunk, attemptAll]
  | succ n ih =>
    intro hn
    obtain ⟨i1, i2, i3⟩ := ih (by omega)
    have hlt : a + n < updaters.length := by omega
    have hu : updaterAt updaters ((a : Int) + (n : Int)) = some (updaters.get ⟨a + n, hlt⟩) := by
      unfold updaterAt
      have : ((a : Int) + (n : Int)).toNat = a + n := by omega
      rw [if_pos (by omega), this, List.get?_eq_get hlt]
    have htake : (updaters.drop a).take (n + 1)
        = (updaters.drop a).take n ++ [updaters.get ⟨a + n, hlt⟩] := by
      rw [List.take_succ, List.getElem?_drop, List.getElem?_eq_getElem hlt]
      rfl
    have hlen : ((updaters.drop a).take n).length = n := by
      rw [List.length_take, List.length_drop]; omega
    obtain ⟨t1, t2, t3⟩ := updateTask_attempt m
      (runChunk m updaters (a : Int) ((a : Int) + (n : Int)) st) ((a : Int) + (n : Int))
      (updaters.get ⟨a + n, hlt⟩)
    rw [runChunk_succ m updaters a n st _ hu, htake, attemptAll_append, hlen]
    simp only [attemptAll]
    rw [t1, t2, t3, i1, i2, i3]
    exact ⟨rfl, rfl, by simp⟩

theorem attemptAll_tasks {σ κ : Type} (m : Manager σ κ) (us : List Updater) :
    ∀ (j : Int) (s : σ) (l : κ),
      (attemptAll m us j s l).2.2.filter (fun e => e.index.isSome)
        = (attemptAll m us j s l).2.2 := by
  induction us with
  | nil => intro j s l; rfl
  | cons u rest ih =>
    intro j s l
    simp only [attemptAll]
    rw [List.filter_cons_of_pos (by rfl), ih]

/-- With at least one worker and a context never cancelled, the chunk loop from
chunk `k` on attempts the updaters left, one after the other. -/
theorem chunkLoop_attempt {σ κ : Type} (m : Manager σ κ) (ctx : Context)
    (updaters : List Updater) (w : Nat) (hw : 1 ≤ w) (hmw : m.workers = (w : Int))
    (hctx : ∀ k, ctx.Err k = none) :
    ∀ (fuel k : Nat) (st st' : RunState σ κ),
      chunkLoop m ctx updaters fuel ((k * w : Nat) : Int) k st = some st' →
      st'.store
          = (attemptAll m (updaters.drop (k * w)) ((k * w : Nat) : Int) st.store st.lock).1
      ∧ st'.lock
          = (attemptAll m (updaters.drop (k * w)) ((k * w : Nat) : Int) st.store st.lock).2.1
      ∧ st'.log.filter (fun e => e.index.isSome)
          = st.log.filter (fun e => e.index.isSome)
            ++ (attemptAll m (updaters.drop (k * w)) ((k * w : Nat) : Int)
                  st.store st.lock).2.2 := by
  intro fuel
  induction fuel with
  | zero => intro k st st' h; simp [chunkLoop] at h
  | succ fuel ih =>
    intro k st st' h
    unfold chunkLoop at h
    by_cases hi : k * w < updaters.length
    · have hi' : ((k * w : Nat) : Int) < (updaters.length : Int) := by exact_mod_cast hi
      have hnext : ((k * w : Nat) : Int) + m.workers = (((k + 1) * w : Nat) : Int) := by
        rw [hmw]; push_cast; ring
      have hsucc : (k + 1) * w = k * w + w := by ring
      rw [if_pos hi', hctx k] at h
      simp only [hnext] at h
      have hstop : (if ((((k + 1) * w : Nat) : Int)) ≥ (updaters.length : Int)
          then (updaters.length : Int) else (((k + 1) * w : Nat) : Int))
          = ((k * w : Nat) : Int)
            + ((min ((k + 1) * w) updaters.length - k * w : Nat) : Int) := by
        split <;> omega
      rw [hstop] at h
      obtain ⟨r1, r2, r3⟩ := ih (k + 1) _ st' h
      obtain ⟨c1, c2, c3⟩ := runChunk_attempt m updaters (k * w)
        { st with log := st.log ++ [.check none] }
        (min ((k + 1) * w) updaters.length - k * w) (by omega)
      have hsplit : updaters.drop (k * w)
          = (updaters.drop (k * w)).take (min ((k + 1) * w) updaters.length - k * w)
            ++ updaters.drop (k * w + (min ((k + 1) * w) updaters.length - k * w)) := by
        rw [← List.drop_drop, List.take_append_drop]
      have hlen : ((updaters.drop (k * w)).take
          (min ((k + 1) * w) updaters.length - k * w)).length
          = min ((k + 1) * w) updaters.length - k * w := by
        rw [List.length_take, List.length_drop]; omega
      have hsame : ∀ (s : σ) (l : κ),
          attemptAll m (updaters.drop ((k + 1) * w)) ((((k + 1) * w : Nat)) : Int) s l
            = attemptAll m
                (updaters.drop (k * w + (min ((k + 1) * w) updaters.length - k * w)))
                (((k * w : Nat) : Int)
                  + ((min ((k + 1) * w) updaters.length - k * w : Nat) : Int)) s l := by
        intro s l
        by_cases hlast : (k + 1) * w ≥ updaters.length
        · rw [List.drop_eq_nil_of_le hlast, List.drop_eq_nil_of_le (by omega)]
          rfl
        · have e1 : k * w + (min ((k + 1) * w) updaters.length - k * w) = (k + 1) * w := by
            omega
          have e2 : ((k * w : Nat) : Int)
              + ((min ((k + 1) * w) updaters.length - k * w : Nat) : Int)
              = (((k + 1) * w : Nat) : Int) := by omega
          rw [e1, e2]
      rw [hsplit, attemptAll_append, hlen]
      rw [hsame] at r1 r2 r3
      rw [c1, c2] at r1 r2 r3
      refine ⟨r1, r2, ?_⟩
      rw [r3, c3, List.filter_append, List.filter_append, attemptAll_tasks]
      simp [RunEvent.index]
    · have hi' : ¬ ((k * w : Nat) : Int) < (updaters.length : Int) := by
        intro h'; exact hi (by exact_mod_cast h')
      rw [if_neg hi'] at h
      injection h with h
      subst h
      rw [List.drop_eq_nil_of_le (by omega)]
      simp [attemptAll]

/-- The loop of `Start` never yields the error of the interval test, and has a
ticker. -/
theorem startLoop_result {σ κ : Type} (m : Manager σ κ) (ctx : Context) (fuel : Nat) :
    ∀ (signals : List Signal) (s : σ) (l : κ) (runs : Nat),
      (startLoop m ctx fuel signals s l runs).result
          ≠ .returned (.msg "manager must be configured with an interval to start")
        ∧ (startLoop m ctx fuel signals s l runs).ticker = true := by
  intro signals
  induction signals with
  | nil => intro s l runs; exact ⟨by simp [startLoop], rfl⟩
  | cons sig rest ih =>
    intro s l runs
    cases sig with
    | done reason => cases reason <;> exact ⟨by simp [startLoop, Cancellation.err], rfl⟩
    | tick =>
      unfold startLoop
      cases Run m ctx fuel s l with
      | none => exact ⟨by simp, rfl⟩
      | some out => exact ih _ _ _

/-- A manager that `NewManager` returns has no configs. -/
theorem NewManager_configs {σ κ : Type} (registered : List (String × UpdaterSetFactory))
    (store : Store σ) (lock : Locker κ) (workers interval : Int)
    (enabled : Option (List String)) (configs : Option Configs) (outOfTree : List Updater)
    (m : Manager σ κ)
    (h : NewManager registered store lock workers interval enabled configs outOfTree = .ok m) :
    m.configs = none := by
  unfold NewManager at h
  simp only at h
  split at h
  · exact absurd h (by simp)
  · injection h with h
    rw [← h]

theorem reconfigure_nil_map (updaters : List Updater) : reconfigure none updaters = [] := by
  induction updaters with
  | nil => rfl
  | cons u rest ih =>
    unfold reconfigure
    cases u.Configure <;> simp [Configs.lookup, ih]

theorem wrap64_small (x : Int) (h1 : -(2 ^ 63) ≤ x) (h2 : x < 2 ^ 63) : wrap64 x = x := by
  unfold wrap64
  omega

theorem tmod_of_neg_lt (a b : Int) (h1 : a < 0) (h2 : -b < a) : Int.tmod a b = a := by
  obtain ⟨n, rfl⟩ := Int.eq_negSucc_of_lt_zero h1
  obtain ⟨k, rfl⟩ := Int.eq_ofNat_of_zero_le (show 0 ≤ b by omega)
  have hn := Int.negSucc_eq n
  show -Int.ofNat ((n + 1) % k) = Int.negSucc n
  rw [Nat.mod_eq_of_lt (by omega)]
  rfl

/-- Rounding to a tenth of a second a duration of less than sixty milliseconds
either way. -/
theorem Round_small (d : Int) (h1 : -60000000 ≤ d) (h2 : d < 60000000) :
    Duration.Round d 100000000
      = if d ≤ -50000000 then -100000000 else if d < 50000000 then 0 else 100000000 := by
  have hm : ¬ ((100000000 : Int) ≤ 0) := by omega
  unfold Duration.Round
  rw [if_neg hm]
  simp only
  by_cases hneg : d < 0
  · rw [if_pos hneg, tmod_of_neg_lt d _ hneg (by omega)]
    by_cases hhalf : d ≤ -50000000
    · have hl : lessThanHalf (-d) 100000000 = false := by
        unfold lessThanHalf Duration; simp only [decide_eq_false_iff_not]; omega
      have hw : wrap64 (d - 100000000 + -d) = -100000000 := by
        rw [wrap64_small _ (by omega) (by omega)]; omega
      have hlt : (-100000000 : Int) < d := by omega
      simp only [Bool.false_eq_true, ↓reduceIte, hl, hw, hhalf, hlt]
    · have hl : lessThanHalf (-d) 100000000 = true := by
        unfold lessThanHalf Duration; simp only [decide_eq_true_eq]; omega
      have hw : wrap64 (d + -d) = 0 := by
        rw [wrap64_small _ (by omega) (by omega)]; omega
      have hlt : d < 50000000 := by omega
      simp only [Bool.false_eq_true, ↓reduceIte, hl, hw, hhalf, hlt]
  · rw [if_neg hneg, Int.tmod_eq_of_lt (by omega) (by omega)]
    by_cases hhalf : d < 50000000
    · have hl : lessThanHalf d 100000000 = true := by
        unfold lessThanHalf Duration; simp only [decide_eq_true_eq]; omega
      have hw : wrap64 (d - d) = 0 := by
        rw [wrap64_small _ (by omega) (by omega)]; omega
      have hge : ¬ d ≤ -50000000 := by omega
      simp only [Bool.false_eq_true, ↓reduceIte, hl, hw, hhalf, hge]
    · have hl : lessThanHalf d 100000000 = false := by
        unfold lessThanHalf Duration; simp only [decide_eq_false_iff_not]; omega
      have hw : wrap64 (d + 100000000 - d) = 100000000 := by
        rw [wrap64_small _ (by omega) (by omega)]; omega
      have hge : ¬ d ≤ -50000000 := by omega
      have hlt : d < 100000000 := by omega
      simp only [Bool.false_eq_true, ↓reduceIte, hl, hw, hhalf, hge, hlt]

/-- The offset `parse` adds for a draw below `jitter`: a tenth of a second
down for a draw up to 10000, a tenth of a second up for a draw from 110000 on,
and nothing in between. -/
theorem jitterOffset_eq (r : Int) (h0 : 0 ≤ r) (h1 : r < jitter) :
    jitterOffset r
      = if r ≤ 10000 then -(100 * Millisecond) else if r < 110000 then 0
        else 100 * Millisecond := by
  have hj : jitter = 120000 := rfl
  rw [hj] at h1
  have hj2 : jitter / 2 = 60000 := by decide
  have hmicro : Microsecond = 1000 := by decide
  have hm : (100 : Int) * Millisecond = 100000000 := by decide
  have hinner : wrap64 (r - 60000) = r - 60000 := wrap64_small _ (by omega) (by omega)
  have hd : wrap64 ((r - 60000) * 1000) = (r - 60000) * 1000 :=
    wrap64_small _ (by omega) (by omega)
  unfold jitterOffset
  rw [hj2, hmicro, hm, hinner, hd, Round_small _ (by omega) (by omega)]
  by_cases ha : r ≤ 10000
  · rw [if_pos ha, if_pos (by omega)]
  · rw [if_neg ha, if_neg (by omega)]
    by_cases hb : r < 110000
    · rw [if_pos hb, if_pos (by omega)]
    · rw [if_neg hb, if_neg (by omega)]

/-! ## Claims -/

/-- C4: for a selector of known facets, `jsonQueryBuilder` returns the select
clause, then the parenthesised package-name test, then one `AND`-joined
containment test per selected facet on the record's distribution field of that
facet; the parenthesised test is the containment test on the package name alone
when the source package name is empty, and joined by `OR` with the containment
test on the source package name when it is not. -/
theorem jsonQueryBuilder_package_name_predicate (record : IndexRecord)
    (matchers : List MatchExp) (hk : ∀ m ∈ matchers, m.known = true) :
    (record.Package.Source.Name = "" →
      jsonQueryBuilder record matchers
        = .ok (selectClause ++ " (" ++ (containment "package" "name" record.Package.Name ++ " ")
            ++ ") " ++ String.join ((dedupFirst matchers).map (fun m =>
              "AND " ++ containment "dist" (facetKey m) (facetValue record.Distribution m)
                ++ " "))))
    ∧ (record.Package.Source.Name ≠ "" →
      jsonQueryBuilder record matchers
        = .ok (selectClause ++ " (" ++ (containment "package" "name" record.Package.Name
              ++ " OR " ++ containment "package" "name" record.Package.Source.Name)
            ++ ") " ++ String.join ((dedupFirst matchers).map (fun m =>
              "AND " ++ containment "dist" (facetKey m) (facetValue record.Distribution m)
                ++ " ")))) := by
  constructor
  · intro h
    rw [jsonQueryBuilder_known record matchers hk]
    simp only [packageNameTest, h, if_true]
    rfl
  · intro h
    rw [jsonQueryBuilder_known record matchers hk]
    simp only [packageNameTest, h, if_false]
    rfl

theorem jsonQueryBuilder_package_name_predicate_witness :
    (∀ m ∈ [MatchExp.PackageDistributionDID], m.known = true) ∧
      ((exampleRecord 7 "openssl" "openssl-libs").Package.Source.Name ≠ "" →
        jsonQueryBuilder (exampleRecord 7 "openssl" "openssl-libs") [.PackageDistributionDID]
          = .ok (selectClause ++ " ("
              ++ (containment "package" "name" (exampleRecord 7 "openssl" "openssl-libs").Package.Name
                ++ " OR " ++ containment "package" "name"
                  (exampleRecord 7 "openssl" "openssl-libs").Package.Source.Name)
              ++ ") " ++ String.join ((dedupFirst [MatchExp.PackageDistributionDID]).map (fun m =>
                "AND " ++ containment "dist" (facetKey m)
                  (facetValue (exampleRecord 7 "openssl" "openssl-libs").Distribution m)
                  ++ " ")))) :=
  ⟨by decide,
    (jsonQueryBuilder_package_name_predicate (exampleRecord 7 "openssl" "openssl-libs")
      [.PackageDistributionDID] (by decide)).2⟩

/-- C1: `get` on three records of which the middle one has an empty package name
returns the error of reading past the last result; before that, the rows of the
third record are filed under the id of the middle record. Over the first and
third record alone `get` succeeds, with one entry for each. -/
theorem get_empty_name_record_not_skipped :
    (get examplePool threeRecords ⟨[]⟩).result = .error (.msg "no result")
    ∧ gather (threeRecords.take 2) (SendBatch examplePool (get examplePool threeRecords ⟨[]⟩).sent.flatten) []
        = .ok [(1, [{ exampleVuln "CVE-A" with ID := 10 }]),
               (2, [{ exampleVuln "CVE-C" with ID := 30 }])]
    ∧ (get examplePool [exampleRecord 1 "bash" "", exampleRecord 3 "zlib" ""] ⟨[]⟩).result
        = .ok [(1, [{ exampleVuln "CVE-A" with ID := 10 }]),
               (3, [{ exampleVuln "CVE-C" with ID := 30 }])] := by
  refine ⟨?_, ?_, ?_⟩ <;> rfl

/-- C5, as stated, fails: with no record to query, `get` with a selector holding
an unknown facet returns an empty map and sends an (empty) batch. -/
theorem get_unknown_matcher_no_records :
    (get examplePool [] ⟨[.Other 99]⟩).result = .ok []
    ∧ (get examplePool [] ⟨[.Other 99]⟩).sent = [[]] :=
  ⟨rfl, rfl⟩

/-- C5, amended: when the transaction begins and some record has a package name,
`get` with a selector holding a facet outside the eight known ones returns the
error that wraps the unknown-matcher error of such a facet, and sends no batch. -/
theorem get_unknown_matcher (pool : Pool) (records : List IndexRecord) (opts : GetOpts)
    (hbegin : pool.Begin = none) (hrec : ∃ r ∈ records, r.Package.Name ≠ "")
    (hunk : ∃ m ∈ opts.Matchers, m.known = false) :
    ∃ m ∈ opts.Matchers, m.known = false ∧
      (get pool records opts).result
        = .error (.wrap ("error building json query string: " ++ (unknownMatcher m).text)
            (unknownMatcher m)) ∧
      (get pool records opts).sent = [] := by
  obtain ⟨m, hm, hk, hq⟩ := queueQueries_unknown opts.Matchers records hrec hunk []
  exact ⟨m, hm, hk, by simp [get, hbegin, hq], by simp [get, hbegin, hq]⟩

theorem get_unknown_matcher_witness :
    ∃ m ∈ [MatchExp.PackageDistributionDID, MatchExp.Other 99], m.known = false ∧
      (get examplePool [exampleRecord 1 "bash" ""]
          ⟨[.PackageDistributionDID, .Other 99]⟩).result
        = .error (.wrap ("error building json query string: " ++ (unknownMatcher m).text)
            (unknownMatcher m)) ∧
      (get examplePool [exampleRecord 1 "bash" ""]
          ⟨[.PackageDistributionDID, .Other 99]⟩).sent = [] :=
  get_unknown_matcher examplePool [exampleRecord 1 "bash" ""]
    ⟨[.PackageDistributionDID, .Other 99]⟩ rfl
    ⟨exampleRecord 1 "bash" "", by simp, by decide⟩ ⟨.Other 99, by simp, rfl⟩

/-- C6: for a selector of known facets, both builders return for the selector
what they return for the selector with every repeated facet removed keeping its
first occurrence. The query of `jsonQueryBuilder` is the select clause, the
package-name test and then one `AND` clause per facet of the deduplicated
selector, in that order; the query of `tagQueryBuilder` is the tag query on the
array of the package tags followed by one tag per facet of the deduplicated
selector, in that order. The deduplicated selector has no facet twice and holds
the facets of the selector. -/
theorem query_builders_deduplicate (record : IndexRecord) (matchers : List MatchExp)
    (hk : ∀ m ∈ matchers, m.known = true) :
    jsonQueryBuilder record matchers = jsonQueryBuilder record (dedupFirst matchers)
    ∧ tagQueryBuilder record matchers = tagQueryBuilder record (dedupFirst matchers)
    ∧ jsonQueryBuilder record matchers
        = .ok (selectClause ++ " (" ++ packageNameTest record.Package ++ ") "
            ++ String.join ((dedupFirst matchers).map (fun m =>
              "AND " ++ containment "dist" (facetKey m) (facetValue record.Distribution m)
                ++ " ")))
    ∧ tagQueryBuilder record matchers
        = .ok (tagQueryText ("\x7b" ++ packageTags record.Package
            ++ String.join ((dedupFirst matchers).map
                (fun m => ", \"" ++ facetValue record.Distribution m ++ "\""))
            ++ "\x7d"))
    ∧ matcherLoop (jsonSwitch record) matchers [] []
        = .ok ((dedupFirst matchers).map (fun m =>
            containment "dist" (facetKey m) (facetValue record.Distribution m)))
    ∧ matcherLoop (tagSwitch record) matchers [] []
        = .ok ((dedupFirst matchers).map (fun m => facetValue record.Distribution m))
    ∧ (dedupFirst matchers).Nodup
    ∧ ∀ m, m ∈ dedupFirst matchers ↔ m ∈ matchers := by
  have hk' := known_dedupFirst matchers hk
  refine ⟨?_, ?_, jsonQueryBuilder_known record matchers hk,
    tagQueryBuilder_known record matchers hk, jsonLoop_known record matchers hk,
    tagLoop_known record matchers hk, nodup_dedupFirst matchers, mem_dedupFirst matchers⟩
  · rw [jsonQueryBuilder_known record matchers hk,
      jsonQueryBuilder_known record (dedupFirst matchers) hk', dedupFirst_idem]
  · rw [tagQueryBuilder_known record matchers hk,
      tagQueryBuilder_known record (dedupFirst matchers) hk', dedupFirst_idem]

set_option maxRecDepth 100000 in
theorem query_builders_deduplicate_witness :
    (∀ m ∈ [MatchExp.PackageDistributionName, .PackageDistributionDID,
        .PackageDistributionName], m.known = true)
    ∧ dedupFirst [MatchExp.PackageDistributionName, .PackageDistributionDID,
        .PackageDistributionName] = [.PackageDistributionName, .PackageDistributionDID]
    ∧ jsonQueryBuilder (exampleRecord 1 "bash" "")
        [.PackageDistributionName, .PackageDistributionDID, .PackageDistributionName]
      = jsonQueryBuilder (exampleRecord 1 "bash" "")
          (dedupFirst [.PackageDistributionName, .PackageDistributionDID,
            .PackageDistributionName])
    ∧ tagQueryBuilder (exampleRecord 1 "bash" "bash-src")
        [.PackageDistributionName, .PackageDistributionDID, .PackageDistributionName]
      = tagQueryBuilder (exampleRecord 1 "bash" "bash-src")
          (dedupFirst [.PackageDistributionName, .PackageDistributionDID,
            .PackageDistributionName])
    ∧ jsonQueryBuilder (exampleRecord 1 "bash" "")
        [.PackageDistributionName, .PackageDistributionDID, .PackageDistributionName]
      = .ok "SELECT id, vulnerability FROM vuln WHERE (vulnerability @> \x27\x7b\"package\": \x7b \"name\": \"bash\"\x7d\x7d\x27 ) AND vulnerability @> \x27\x7b\"dist\": \x7b \"name\": \"Debian GNU/Linux\"\x7d\x7d\x27 AND vulnerability @> \x27\x7b\"dist\": \x7b \"did\": \"debian\"\x7d\x7d\x27 "
    ∧ tagQueryBuilder (exampleRecord 1 "bash" "bash-src")
        [.PackageDistributionName, .PackageDistributionDID, .PackageDistributionName]
      = .ok "SELECT id,\n\t\tname,\n\t\tdescription,\n\t\tlinks,\n\t\tseverity,\n\t\tpackage_name,\n\t\tpackage_version,\n\t\tpackage_kind,\n\t\tdist_id,\n\t\tdist_name,\n\t\tdist_version,\n\t\tdist_version_code_name,\n\t\tdist_version_id,\n\t\tdist_arch,\n\t\tdist_cpe,\n\t\tdist_pretty_name,\n\t\trepo_name,\n\t\trepo_key,\n\t\trepo_uri,\n\t\tfixed_in_version\n\t\tFROM vuln WHERE tags @> \x27\x7b\"bash\", \"bash-src\", \"Debian GNU/Linux\", \"debian\"\x7d\x27" :=
  have hj := query_builders_deduplicate (exampleRecord 1 "bash" "")
    [.PackageDistributionName, .PackageDistributionDID, .PackageDistributionName] (by decide)
  have ht := query_builders_deduplicate (exampleRecord 1 "bash" "bash-src")
    [.PackageDistributionName, .PackageDistributionDID, .PackageDistributionName] (by decide)
  ⟨by decide, by decide, hj.1, ht.2.1, hj.2.2.1.trans (congrArg Except.ok (by decide)),
    ht.2.2.2.1.trans (congrArg Except.ok (by decide))⟩

/-- C7: when every record has a package name, the selector holds known facets,
and the transaction, every query, every scan, the close and the commit succeed,
`get` returns a map whose entry under key `k` is the concatenation, in record
order, of the vulnerabilities built from the rows returned for the records with
`Package.ID = k` (each with the id of its row), and has no entry under `k` when
that concatenation is empty. -/
theorem get_result_keying (pool : Pool) (records : List IndexRecord) (opts : GetOpts)
    (hname : ∀ r ∈ records, r.Package.Name ≠ "")
    (hk : ∀ m ∈ opts.Matchers, m.known = true)
    (hbegin : pool.Begin = none) (ha : ∀ r ∈ records, answered pool opts r)
    (hclose : pool.Close = none) (hcommit : pool.Commit = none) :
    ∃ results, (get pool records opts).result = .ok results ∧
      ∀ k, results.lookup k
        = if (records.filter (fun r => decide (r.Package.ID = k))).flatMap (rowsOf pool opts) = []
          then none
          else some ((records.filter (fun r => decide (r.Package.ID = k))).flatMap
            (rowsOf pool opts)) := by
  have hq : ∀ r ∈ records, ∃ q, jsonQueryBuilder r opts.Matchers = .ok q :=
    fun r _ => ⟨_, jsonQueryBuilder_known r opts.Matchers hk⟩
  obtain ⟨queued, h1, _, h3⟩ := queueQueries_ok opts.Matchers records hname hq []
  obtain ⟨results, hg, hl⟩ := gather_ok pool opts records hq ha [] []
  refine ⟨results, ?_, ?_⟩
  · simp only [List.append_nil] at hg
    simp only [get, hbegin, h1, List.nil_append, SendBatch, h3 pool, hg, hclose, hcommit]
  · intro k
    rw [hl k]
    simp [extend, Results.lookup]

theorem get_result_keying_witness :
    ∃ results,
      (get examplePool [exampleRecord 1 "bash" "", exampleRecord 3 "zlib" ""] ⟨[]⟩).result
        = .ok results ∧
      ∀ k, results.lookup k
        = if ([exampleRecord 1 "bash" "", exampleRecord 3 "zlib" ""].filter
              (fun r => decide (r.Package.ID = k))).flatMap (rowsOf examplePool ⟨[]⟩) = []
          then none
          else some (([exampleRecord 1 "bash" "", exampleRecord 3 "zlib" ""].filter
            (fun r => decide (r.Package.ID = k))).flatMap (rowsOf examplePool ⟨[]⟩)) :=
  get_result_keying examplePool [exampleRecord 1 "bash" "", exampleRecord 3 "zlib" ""] ⟨[]⟩
    (by decide) (by simp) rfl
    (fun r _ => examplePool_answered ⟨[]⟩ r)
    rfl rfl

/-- C2: from a store whose cursor table respects its primary key, when two
calls of `putVulnerabilities` for the same updater both return nil, the second
drawing a tombstone `T2` that no stored row carries and that differs from the
first call's tombstone `T1`: no row carries `T1`, exactly `|V2|` rows carry
`T2`, all of them of this updater, and the only cursor row of the updater is
`(F2, T2)`. -/
theorem putVulnerabilities_tombstone_swap (env1 env2 : PutEnv) (db db1 db2 : Database)
    (name F1 F2 : String) (V1 V2 : List Vulnerability)
    (hwf : db.wellFormed)
    (hfresh : ∀ r ∈ db.vuln, r.tombstone ≠ env2.uuid.String)
    (hdistinct : env1.uuid.String ≠ env2.uuid.String)
    (h1 : putVulnerabilities env1 db name F1 V1 = (none, db1))
    (h2 : putVulnerabilities env2 db1 name F2 V2 = (none, db2)) :
    (∀ r ∈ db2.vuln, r.tombstone ≠ env1.uuid.String) ∧
      (db2.vuln.filter (fun r => decide (r.tombstone = env2.uuid.String))).length = V2.length ∧
      (∀ r ∈ db2.vuln, r.tombstone = env2.uuid.String → r.updater = name) ∧
      db2.updatecursor.filter (fun r => decide (r.updater = name))
        = [⟨name, F2, env2.uuid.String⟩] := by
  have e1 := putVulnerabilities_ok env1 db name F1 V1 (by rw [h1])
  have e2 := putVulnerabilities_ok env2 db1 name F2 V2 (by rw [h2])
  rw [h1] at e1
  rw [h2] at e2
  obtain ⟨a1, a2, _, _, _⟩ := putInTx_ok _ _ _ _ _ _ _ _ e1.1
  obtain ⟨b1, b2, _, _, _⟩ := putInTx_ok _ _ _ _ _ _ _ _ e2.1
  simp only at a1 a2 b1 b2
  have hold : oldTombstoneOf db1 name = env1.uuid.String := oldTombstoneOf_upsert db db1 _ _ _ a2
  rw [hold, if_pos (uuid_string_ne_empty env1.uuid)] at b1
  have hdb1 : ∀ r ∈ db1.vuln, r.tombstone ≠ env2.uuid.String := by
    intro r hr
    have hmem : r ∈ db.vuln ++ V1.map (fun v => VulnRow.mk name (fillEnvelopes v) env1.uuid.String) := by
      rw [a1] at hr
      split_ifs at hr
      · exact (List.mem_filter.1 hr).1
      · exact hr
    rcases List.mem_append.1 hmem with hm | hm
    · exact hfresh r hm
    · obtain ⟨v, _, rfl⟩ := List.mem_map.1 hm
      exact hdistinct
  have hfilter : db2.vuln.filter (fun r => decide (r.tombstone = env2.uuid.String))
      = V2.map (fun v => VulnRow.mk name (fillEnvelopes v) env2.uuid.String) := by
    rw [b1, List.filter_filter, List.filter_append]
    have hleft : List.filter (fun a => decide (a.tombstone = env2.uuid.String)
        && decide (a.tombstone ≠ env1.uuid.String)) db1.vuln = [] := by
      rw [List.filter_eq_nil_iff]
      intro r hr
      simp [hdb1 r hr]
    rw [hleft, List.nil_append, List.filter_eq_self]
    intro r hr
    obtain ⟨v, _, rfl⟩ := List.mem_map.1 hr
    simp [Ne.symm hdistinct]
  have hwf1 : db1.wellFormed := by
    unfold Database.wellFormed
    rw [a2]
    exact (execUpsert_cursor db name F1 _ hwf).2
  refine ⟨?_, ?_, ?_, ?_⟩
  · intro r hr
    rw [b1] at hr
    simpa using (List.mem_filter.1 hr).2
  · rw [hfilter, List.length_map]
  · intro r hr ht
    have hmem : r ∈ db2.vuln.filter (fun r => decide (r.tombstone = env2.uuid.String)) :=
      List.mem_filter.2 ⟨hr, by simpa using ht⟩
    rw [hfilter] at hmem
    obtain ⟨v, _, rfl⟩ := List.mem_map.1 hmem
    rfl
  · rw [b2]
    exact (execUpsert_cursor db1 name F2 _ hwf1).1

theorem putVulnerabilities_tombstone_swap_witness :
    (∀ r ∈ (putVulnerabilities (quietEnv (exampleUUID 2))
          (putVulnerabilities (quietEnv (exampleUUID 1)) exampleDatabase "alpine" "f1"
            [exampleVuln "CVE-A", exampleVuln "CVE-B"]).2 "alpine" "f2"
          [exampleVuln "CVE-B", exampleVuln "CVE-C"]).2.vuln,
        r.tombstone ≠ (exampleUUID 1).String) ∧
      ((putVulnerabilities (quietEnv (exampleUUID 2))
          (putVulnerabilities (quietEnv (exampleUUID 1)) exampleDatabase "alpine" "f1"
            [exampleVuln "CVE-A", exampleVuln "CVE-B"]).2 "alpine" "f2"
          [exampleVuln "CVE-B", exampleVuln "CVE-C"]).2.vuln.filter
        (fun r => decide (r.tombstone = (exampleUUID 2).String))).length = 2 ∧
      (∀ r ∈ (putVulnerabilities (quietEnv (exampleUUID 2))
          (putVulnerabilities (quietEnv (exampleUUID 1)) exampleDatabase "alpine" "f1"
            [exampleVuln "CVE-A", exampleVuln "CVE-B"]).2 "alpine" "f2"
          [exampleVuln "CVE-B", exampleVuln "CVE-C"]).2.vuln,
        r.tombstone = (exampleUUID 2).String → r.updater = "alpine") ∧
      (putVulnerabilities (quietEnv (exampleUUID 2))
          (putVulnerabilities (quietEnv (exampleUUID 1)) exampleDatabase "alpine" "f1"
            [exampleVuln "CVE-A", exampleVuln "CVE-B"]).2 "alpine" "f2"
          [exampleVuln "CVE-B", exampleVuln "CVE-C"]).2.updatecursor.filter
        (fun r => decide (r.updater = "alpine"))
        = [⟨"alpine", "f2", (exampleUUID 2).String⟩] :=
  putVulnerabilities_tombstone_swap (quietEnv (exampleUUID 1)) (quietEnv (exampleUUID 2))
    exampleDatabase _ _ "alpine" "f1" "f2" [exampleVuln "CVE-A", exampleVuln "CVE-B"]
    [exampleVuln "CVE-B", exampleVuln "CVE-C"]
    (by unfold Database.wellFormed; decide) (by decide) (by decide) rfl rfl

/-- C3: when any step of `putVulnerabilities` fails (reading the old tombstone,
beginning the transaction, an insert, the delete of the old tombstone's rows
when there is an old tombstone, the upsert of the cursor, the commit), the call
returns an error and the rows of `vuln` and of `updatecursor` are those from
before the call. -/
theorem putVulnerabilities_atomic (env : PutEnv) (db : Database) (updater hash : String)
    (vulns : List Vulnerability)
    (hfail : env.selectTombstone ≠ none ∨ env.Begin ≠ none ∨
      (∃ i < vulns.length, env.insert i ≠ none) ∨
      (oldTombstoneOf db updater ≠ "" ∧ env.delete ≠ none) ∨
      env.upsert ≠ none ∨ env.Commit ≠ none) :
    (putVulnerabilities env db updater hash vulns).1 ≠ none ∧
      (putVulnerabilities env db updater hash vulns).2.vuln = db.vuln ∧
      (putVulnerabilities env db updater hash vulns).2.updatecursor = db.updatecursor := by
  have herr : (putVulnerabilities env db updater hash vulns).1 ≠ none := by
    intro hnone
    obtain ⟨htx, hs, hb, hc⟩ := putVulnerabilities_ok env db updater hash vulns hnone
    obtain ⟨_, _, hins, hdel, hup⟩ := putInTx_ok _ _ _ _ _ _ _ _ htx
    rcases hfail with h | h | ⟨i, hi, h⟩ | ⟨ho, h⟩ | h | h
    · exact h hs
    · exact h hb
    · exact h (hins i hi)
    · exact h (hdel ho)
    · exact h hup
    · exact h hc
  have hsame := putVulnerabilities_error env db updater hash vulns herr
  exact ⟨herr, by rw [hsame], by rw [hsame]⟩

theorem putVulnerabilities_atomic_witness :
    (putVulnerabilities { quietEnv (exampleUUID 1) with Commit := some (.msg "conn closed") }
        exampleDatabase "alpine" "f1" [exampleVuln "CVE-A"]).1 ≠ none ∧
      (putVulnerabilities { quietEnv (exampleUUID 1) with Commit := some (.msg "conn closed") }
        exampleDatabase "alpine" "f1" [exampleVuln "CVE-A"]).2.vuln = exampleDatabase.vuln ∧
      (putVulnerabilities { quietEnv (exampleUUID 1) with Commit := some (.msg "conn closed") }
        exampleDatabase "alpine" "f1" [exampleVuln "CVE-A"]).2.updatecursor
        = exampleDatabase.updatecursor :=
  putVulnerabilities_atomic { quietEnv (exampleUUID 1) with Commit := some (.msg "conn closed") }
    exampleDatabase "alpine" "f1" [exampleVuln "CVE-A"]
    (Or.inr (Or.inr (Or.inr (Or.inr (Or.inr (by simp))))))

/-- C8: on a registry of `alpine` and `debian`, `NewManager` with the enabled
list `["alpine"]` returns a manager whose only factory is `debian`, and with an
empty non-nil list a manager that keeps both factories; with a nil list it
keeps both. -/
theorem NewManager_deletes_enabled_factories :
    factoryNames (NewManager exampleRegistry exampleStore LockerMock 10 0
        (some ["alpine"]) none []) = ["debian"]
    ∧ factoryNames (NewManager exampleRegistry exampleStore LockerMock 10 0
        (some []) none []) = ["alpine", "debian"]
    ∧ factoryNames (NewManager exampleRegistry exampleStore LockerMock 10 0
        none none []) = ["alpine", "debian"] :=
  ⟨rfl, rfl, rfl⟩

/-- C9: when the operations of the updater are read and `Fetch` returns an
error, `driveUpdater` leaves the store as it was and calls neither `Parse` nor
`UpdateVulnerabilities`; it returns nil when the error is or wraps
`driver.Unchanged`, and the error itself otherwise. -/
theorem driveUpdater_unchanged {σ : Type} (store : Store σ) (s : σ) (u : Updater)
    (opmap : String → List UpdateOperation) (err : Error)
    (hops : store.GetUpdateOperations s u.Name = .ok opmap)
    (hfetch : (u.Fetch (prevFPOf (opmap u.Name))).err = some err) :
    (driveUpdater store s u).result = (if err.isUnchanged then none else some err) ∧
      (driveUpdater store s u).store = s ∧
      (driveUpdater store s u).calls
        = [.GetUpdateOperations u.Name, .Fetch (prevFPOf (opmap u.Name))]
          ++ deferClose (u.Fetch (prevFPOf (opmap u.Name))).vulnDB ∧
      (∀ c ∈ (driveUpdater store s u).calls,
        (∀ db, c ≠ .Parse db) ∧ (∀ name fp vulns, c ≠ .UpdateVulnerabilities name fp vulns)) := by
  have hcalls : ∀ c ∈ [Call.GetUpdateOperations u.Name, Call.Fetch (prevFPOf (opmap u.Name))]
        ++ deferClose (u.Fetch (prevFPOf (opmap u.Name))).vulnDB,
      (∀ db, c ≠ .Parse db) ∧ (∀ name fp vulns, c ≠ .UpdateVulnerabilities name fp vulns) := by
    intro c hc
    have hc' : c = .GetUpdateOperations u.Name ∨ c = .Fetch (prevFPOf (opmap u.Name))
        ∨ c = .Close := by
      cases hv : (u.Fetch (prevFPOf (opmap u.Name))).vulnDB with
      | none => simp [hv, deferClose] at hc; tauto
      | some v => simp [hv, deferClose] at hc; tauto
    rcases hc' with rfl | rfl | rfl <;> exact ⟨fun _ => by simp, fun _ _ _ => by simp⟩
  cases hu : err.isUnchanged with
  | true =>
    have hd : driveUpdater store s u
        = ⟨none, s, [.GetUpdateOperations u.Name, .Fetch (prevFPOf (opmap u.Name))]
            ++ deferClose (u.Fetch (prevFPOf (opmap u.Name))).vulnDB⟩ := by
      simp [driveUpdater, hops, hfetch, hu]
    rw [hd]
    exact ⟨by simp, rfl, rfl, hcalls⟩
  | false =>
    have hd : driveUpdater store s u
        = ⟨some err, s, [.GetUpdateOperations u.Name, .Fetch (prevFPOf (opmap u.Name))]
            ++ deferClose (u.Fetch (prevFPOf (opmap u.Name))).vulnDB⟩ := by
      simp [driveUpdater, hops, hfetch, hu]
    rw [hd]
    exact ⟨by simp, rfl, rfl, hcalls⟩

theorem driveUpdater_unchanged_witness :
    (driveUpdater exampleStore ()
        (exampleUpdater "alpine-main" (some (.wrap "fetch: unchanged" .Unchanged)))).result
        = (if (Error.wrap "fetch: unchanged" .Unchanged).isUnchanged then none
            else some (.wrap "fetch: unchanged" .Unchanged)) ∧
      (driveUpdater exampleStore ()
        (exampleUpdater "alpine-main" (some (.wrap "fetch: unchanged" .Unchanged)))).store = () :=
  have h := driveUpdater_unchanged exampleStore ()
    (exampleUpdater "alpine-main" (some (.wrap "fetch: unchanged" .Unchanged)))
    (fun _ => []) (.wrap "fetch: unchanged" .Unchanged) rfl rfl
  ⟨h.1, h.2.1⟩

/-- C10, as stated, fails: when a factory cannot build its updater set, `Run`
returns the error of the factory as it is, and its message does not start with
`updating errors:`; and with no worker, a context never cancelled and an updater
to run, `Run` does not return whatever the fuel. -/
theorem Run_returns_factory_error :
    (Run (exampleManager [("broken", ⟨.error (.msg "boom"), none⟩)] 10) background 1 () ()).map
        (fun out => out.result) = some (some (.msg "boom"))
    ∧ ¬ (("updating errors:").data <+: (Error.msg "boom").text.data)
    ∧ ∀ fuel, (Run (exampleManager exampleRegistry 0) background fuel () ()).map
        (fun out => out.result) = none := by
  refine ⟨rfl, by decide, ?_⟩
  intro fuel
  have h := chunkLoop_no_worker (exampleManager exampleRegistry 0)
    [exampleUpdater "alpine-main" none, exampleUpdater "debian-buster" none] rfl (by simp)
    fuel 0 ⟨(), (), [], []⟩
  have hc : constructUpdaters (exampleManager exampleRegistry 0).factories []
      = .ok [exampleUpdater "alpine-main" none, exampleUpdater "debian-buster" none] := rfl
  simp only [Run, hc, h, Option.map_none']

/-- C10, amended: for a manager with at least one worker, when a factory cannot
build its updater set `Run` returns the error of that factory as it is; when
every factory builds its set, `Run` returns (within a fuel of the number of
updaters plus one) either nil or an error whose message starts with the line
`updating errors:`, and it returns nil exactly when no context check and no
updater task reported an error. -/
theorem Run_result {σ κ : Type} (m : Manager σ κ) (ctx : Context) (s : σ) (l : κ)
    (hw : 1 ≤ m.workers) :
    (∀ err, constructUpdaters m.factories [] = .error err →
      ∀ fuel, (Run m ctx fuel s l).map (fun out => out.result) = some (some err)) ∧
    (∀ updaters, constructUpdaters m.factories [] = .ok updaters →
      ∃ out, Run m ctx (updaters.length + 1) s l = some out ∧
        (out.result = none ↔ ∀ e ∈ out.log, e.isError = false) ∧
        (∀ err, out.result = some err → ∃ rest, err.text = "updating errors:\n" ++ rest)) := by
  constructor
  · intro err herr fuel
    simp [Run, herr]
  · intro updaters hok
    obtain ⟨st, hst, hbal⟩ := chunkLoop_terminates m ctx updaters hw (updaters.length + 1) 0 0
      ⟨s, l, [], []⟩ (by simp) (by simp [RunState.balanced])
    unfold RunState.balanced at hbal
    have hiff : st.errChan.length = 0 ↔ ∀ e ∈ st.log, e.isError = false := by
      rw [hbal, List.length_eq_zero, List.filter_eq_nil_iff]
      simp
    by_cases hz : st.errChan.length = 0
    · refine ⟨⟨none, st.store, st.lock, updaters, reconfigure m.configs updaters, st.log⟩,
        by simp [Run, hok, hst, hz], ?_, ?_⟩
      · simp only [true_iff]
        exact hiff.1 hz
      · intro err herr
        simp at herr
    · refine ⟨⟨some (updatingErrors st.errChan), st.store, st.lock, updaters,
          reconfigure m.configs updaters, st.log⟩, by simp [Run, hok, hst, hz], ?_, ?_⟩
      · constructor
        · intro h; simp at h
        · intro h; exact absurd (hiff.2 h) hz
      · intro err herr
        simp only [Option.some.injEq] at herr
        subst herr
        exact updatingErrors_text st.errChan

theorem Run_result_witness :
    ∃ out, Run (exampleManager exampleRegistry 1) background
        ([exampleUpdater "alpine-main" none, exampleUpdater "debian-buster" none].length + 1)
        () () = some out ∧
      (out.result = none ↔ ∀ e ∈ out.log, e.isError = false) ∧
      (∀ err, out.result = some err → ∃ rest, err.text = "updating errors:\n" ++ rest) :=
  (Run_result (exampleManager exampleRegistry 1) background () () (by decide)).2
    [exampleUpdater "alpine-main" none, exampleUpdater "debian-buster" none] rfl

/-- C11: for a manager with at least one worker, a context never cancelled and
the `n` updaters its factories yield, `Run` ends within `n + 1` iterations of
the chunk loop; it makes `ceil(n / workers)` chunks, chunk `k` holds the tasks
of the indices `k*workers` up to `min((k+1)*workers, n) - 1`, no chunk holds
more than `workers` tasks, and the tasks over the whole run are one per index
`0 .. n-1`, each for the updater at that index. The store and the lock after the
run, and the task events, are those of attempting every updater once in index
order: `TryLock` on its name, then `driveUpdater` if the lock was acquired, then
the release of the lock. -/
theorem Run_chunked {σ κ : Type} (m : Manager σ κ) (ctx : Context)
    (updaters : List Updater) (fuel : Nat) (s : σ) (l : κ)
    (hw : 1 ≤ m.workers) (hctx : ∀ k, ctx.Err k = none)
    (hu : constructUpdaters m.factories [] = .ok updaters)
    (hfuel : updaters.length < fuel) :
    ∃ out, Run m ctx fuel s l = some out ∧ out.updaters = updaters ∧
      (chunksOf out.log).1 = [] ∧
      (chunksOf out.log).2.length
        = (updaters.length + m.workers.toNat - 1) / m.workers.toNat ∧
      (chunksOf out.log).2
        = (List.range ((updaters.length + m.workers.toNat - 1) / m.workers.toNat)).map
            (chunkIndices updaters.length m.workers.toNat) ∧
      (∀ c ∈ (chunksOf out.log).2, (c.length : Int) ≤ m.workers) ∧
      out.log.filterMap RunEvent.index
        = (List.range updaters.length).map (fun (j : Nat) => (j : Int)) ∧
      (∀ e ∈ out.log, e.attempts updaters = true) ∧
      out.store = (attemptAll m updaters 0 s l).1 ∧
      out.lock = (attemptAll m updaters 0 s l).2.1 ∧
      out.log.filter (fun e => e.index.isSome) = (attemptAll m updaters 0 s l).2.2 := by
  have hmw : m.workers = (m.workers.toNat : Int) := by omega
  have hw' : 1 ≤ m.workers.toNat := by omega
  obtain ⟨st', L, r1, r2, r3, r4, r5⟩ :=
    chunkLoop_log m ctx updaters m.workers.toNat hw' hmw hctx fuel 0 ⟨s, l, [], []⟩
      (by omega)
  obtain ⟨a1, a2, a3⟩ :=
    chunkLoop_attempt m ctx updaters m.workers.toNat hw' hmw hctx fuel 0 ⟨s, l, [], []⟩ st' r1
  simp only [Nat.zero_mul, Nat.cast_zero, Nat.sub_zero, List.nil_append, Nat.zero_add,
    List.drop_zero, List.filter_nil, ← List.range_eq_range'] at r1 r2 r3 r4 a1 a2 a3
  have hlog : st'.log = L := r2
  have hchunks : (chunksOf st'.log).2
      = (List.range ((updaters.length + m.workers.toNat - 1) / m.workers.toNat)).map
          (chunkIndices updaters.length m.workers.toNat) := by rw [hlog, r3]
  have hshape : ∀ out : RunOutcome σ κ, out.updaters = updaters → out.log = st'.log →
      out.store = st'.store → out.lock = st'.lock →
      out.updaters = updaters ∧
      (chunksOf out.log).1 = [] ∧
      (chunksOf out.log).2.length
        = (updaters.length + m.workers.toNat - 1) / m.workers.toNat ∧
      (chunksOf out.log).2
        = (List.range ((updaters.length + m.workers.toNat - 1) / m.workers.toNat)).map
            (chunkIndices updaters.length m.workers.toNat) ∧
      (∀ c ∈ (chunksOf out.log).2, (c.length : Int) ≤ m.workers) ∧
      out.log.filterMap RunEvent.index
        = (List.range updaters.length).map (fun (j : Nat) => (j : Int)) ∧
      (∀ e ∈ out.log, e.attempts updaters = true) ∧
      out.store = (attemptAll m updaters 0 s l).1 ∧
      out.lock = (attemptAll m updaters 0 s l).2.1 ∧
      out.log.filter (fun e => e.index.isSome) = (attemptAll m updaters 0 s l).2.2 := by
    intro out h1 h2 h3 h4
    rw [h2, h3, h4]
    refine ⟨h1, by rw [hlog, r3], by rw [hchunks]; simp, hchunks, ?_, by rw [hlog, r4],
      by rw [hlog]; exact r5, a1, a2, a3⟩
    intro c hc
    rw [hchunks, List.mem_map] at hc
    obtain ⟨k, _, rfl⟩ := hc
    have hsucc : (k + 1) * m.workers.toNat = k * m.workers.toNat + m.workers.toNat := by ring
    simp only [chunkIndices, List.length_map, List.length_range]
    omega
  unfold Run
  simp only [hu, r1]
  split
  · exact ⟨_, rfl, hshape _ rfl rfl rfl rfl⟩
  · exact ⟨_, rfl, hshape _ rfl rfl rfl rfl⟩

theorem Run_chunked_witness :
    1 ≤ (recordingManager threeUpdaterRegistry 2).workers
    ∧ ∃ out, Run (recordingManager threeUpdaterRegistry 2) background 4 [] [] = some out ∧
      (chunksOf out.log).1 = [] ∧
      (chunksOf out.log).2 = [[0, 1], [2]] ∧
      out.log.filterMap RunEvent.index = [0, 1, 2] ∧
      out.lock = ["TryLock alpine-main", "Unlock", "TryLock alpine-community", "Unlock",
        "TryLock debian-buster", "Unlock"] ∧
      out.store = ["UpdateVulnerabilities alpine-main",
        "UpdateVulnerabilities alpine-community", "UpdateVulnerabilities debian-buster"] ∧
      out.log.filter (fun e => e.index.isSome)
        = [.task 0 "alpine-main" (.drove none), .task 1 "alpine-community" (.drove none),
           .task 2 "debian-buster" (.drove none)] := by
  obtain ⟨out, h1, _, h3, _, h5, _, h7, _, h9, h10, h11⟩ :=
    Run_chunked (recordingManager threeUpdaterRegistry 2) background
      [exampleUpdater "alpine-main" none, exampleUpdater "alpine-community" none,
        exampleUpdater "debian-buster" none] 4 [] [] (by decide) (fun _ => rfl) rfl
      (by decide)
  exact ⟨by decide, out, h1, h3, h5.trans (by decide), h7.trans (by decide),
    h10.trans (by decide), h9.trans (by decide), h11.trans (by decide)⟩

/-- C12, as stated, fails: with a negative interval `Start` passes the test of the
interval, which is for zero only, and `time.NewTicker` panics; the error
"manager must be configured with an interval to start" is not returned. -/
theorem Start_negative_interval :
    (intervalManager (-1)).interval ≤ 0
    ∧ (Start (intervalManager (-1)) background 3 [.tick, .done .Canceled] () ()).result
        = .panicked "non-positive interval for NewTicker"
    ∧ (Start (intervalManager (-1)) background 3 [.tick, .done .Canceled] () ()).result
        ≠ .returned (.msg "manager must be configured with an interval to start") := by
  refine ⟨by decide, rfl, by decide⟩

/-- C12, amended: with an interval of zero `Start` returns the error "manager
must be configured with an interval to start", creates no ticker, calls `Run`
not once and leaves the store and the lock as they were; with an interval
greater than zero `Start` does not return that error. -/
theorem Start_interval {σ κ : Type} (m : Manager σ κ) (ctx : Context) (fuel : Nat)
    (signals : List Signal) (s : σ) (l : κ) :
    (m.interval = 0 →
      (Start m ctx fuel signals s l).result
          = .returned (.msg "manager must be configured with an interval to start")
        ∧ (Start m ctx fuel signals s l).ticker = false
        ∧ (Start m ctx fuel signals s l).runs = 0
        ∧ (Start m ctx fuel signals s l).store = s
        ∧ (Start m ctx fuel signals s l).lock = l)
    ∧ (0 < m.interval →
      (Start m ctx fuel signals s l).result
          ≠ .returned (.msg "manager must be configured with an interval to start")) := by
  constructor
  · intro h
    unfold Start
    rw [if_pos h]
    exact ⟨rfl, rfl, rfl, rfl, rfl⟩
  · intro h
    unfold Start NewTicker
    rw [if_neg (by omega), if_neg (by omega)]
    exact (startLoop_result m ctx fuel signals s l 0).1

theorem Start_interval_witness :
    ((intervalManager 0).interval = 0
      ∧ (Start (intervalManager 0) background 3 [.tick, .done .Canceled] () ()).result
          = .returned (.msg "manager must be configured with an interval to start")
      ∧ (Start (intervalManager 0) background 3 [.tick, .done .Canceled] () ()).runs = 0)
    ∧ (0 < (intervalManager 60000000000).interval
      ∧ (Start (intervalManager 60000000000) background 3 [.tick, .done .Canceled] () ()).result
          ≠ .returned (.msg "manager must be configured with an interval to start")) :=
  have h0 := (Start_interval (intervalManager 0) background 3 [.tick, .done .Canceled]
    () ()).1 rfl
  ⟨⟨rfl, h0.1, h0.2.2.1⟩, by decide,
    (Start_interval (intervalManager 60000000000) background 3 [.tick, .done .Canceled]
      () ()).2 (by decide)⟩

/-- C13: a manager that `NewManager` returns for a configs map has no configs;
its `Run` drives the configurable updater `alpine-main`, whose name is a key of
that map, and calls `Configure` not once, whereas the same manager with the
map in its `configs` field calls it with the config under that name. -/
theorem NewManager_Run_calls_no_Configure :
    ∃ (m : Manager Unit Unit) (out : RunOutcome Unit Unit),
      NewManager configurableRegistry exampleStore LockerMock 1 0 none
          (some exampleConfigs) [] = .ok m
      ∧ Run m background 2 () () = some out
      ∧ out.result = none
      ∧ out.updaters.map (fun u => (u.Name, u.Configure.isSome)) = [("alpine-main", true)]
      ∧ Configs.lookup (some exampleConfigs) "alpine-main" = some "cfg"
      ∧ out.log = [.check none, .task 0 "alpine-main" (.drove none)]
      ∧ out.configured = []
      ∧ ∃ out' : RunOutcome Unit Unit,
          Run { m with configs := some exampleConfigs } background 2 () () = some out'
          ∧ out'.configured = [("alpine-main", "cfg", none)] := by
  refine ⟨_, _, rfl, rfl, ?_, ?_, ?_, ?_, ?_, _, rfl, ?_⟩
  · decide
  · decide
  · simp [Configs.lookup, exampleConfigs]
  · decide
  · exact reconfigure_nil_map _
  · simp [reconfigure, configurableUpdater, exampleUpdater, Configs.lookup, exampleConfigs]

/-- C14: for options with a connection string and an interval of half an hour,
`parse` with the draw 0 leaves the interval a tenth of a second under half an
hour, not a minute under it; the draw 30000 leaves half an hour, and the draw
119999 a tenth of a second over it. -/
theorem parse_jitter_microseconds :
    updateIntervalOf (exampleOpts.parse 0) = some (30 * Minute - 100 * Millisecond)
    ∧ updateIntervalOf (exampleOpts.parse 0) ≠ some (30 * Minute - 60 * Second)
    ∧ updateIntervalOf (exampleOpts.parse 30000) = some (30 * Minute)
    ∧ updateIntervalOf (exampleOpts.parse 119999)
        = some (30 * Minute + 100 * Millisecond) := by
  refine ⟨by decide, by decide, by decide, by decide⟩

end Claircore
